import Mathlib

/-!
Shallow embedding of the food-production warehouse-management backend
(`backend/app`), covering the production-run state machine, the
buffer/inventory ledger, the QC/temperature gate, idempotency handling and
the lot-genealogy traversal.  Quantities (SQL `Numeric`) are modelled as
rationals, timestamps and identifiers as naturals.  Each route handler is
translated as a pure function from explicit state to `Except`, mirroring
the fact that an `HTTPException` raised before any mutation leaves the
database untouched (every handler in the source raises before mutating).
-/

namespace WMS

/-- Production run status (`app/models/production.py`, `RunStatus`). -/
inductive RunStatus
  | IDLE
  | RUNNING
  | HOLD
  | COMPLETED
  | ABORTED
  | ARCHIVED
  deriving Repr, DecidableEq

/-- Step execution status (`app/models/run.py`, `StepExecutionStatus`). -/
inductive StepExecutionStatus
  | PENDING
  | IN_PROGRESS
  | COMPLETED
  | SKIPPED
  deriving Repr, DecidableEq

/-- Flow version lifecycle status (`app/models/flow.py`, `FlowVersionStatus`). -/
inductive FlowVersionStatus
  | DRAFT
  | REVIEW
  | PUBLISHED
  | DEPRECATED
  deriving Repr, DecidableEq

/-- Lot lifecycle status (`app/models/lot.py`, `LotStatus`). -/
inductive LotStatus
  | CREATED
  | QUARANTINE
  | RELEASED
  | HOLD
  | REJECTED
  | CONSUMED
  | FINISHED
  deriving Repr, DecidableEq

/-- One row of `run_step_executions` (`app/models/run.py`, `RunStepExecution`),
restricted to the fields the run endpoints read or write. -/
structure StepExec where
  step_index : Nat
  node_id : String
  status : StepExecutionStatus
  started_at : Option Nat
  completed_at : Option Nat
  operator_id : Nat
  deriving Repr, DecidableEq

/-- One row of `production_runs` (`app/models/production.py`, `ProductionRun`),
with its step executions inlined as the list of rows whose `run_id` is this
run (the per-run view the handlers query). -/
structure Run where
  run_code : String
  flow_version_id : Nat
  status : RunStatus
  current_step_index : Nat
  idempotency_key : Nat
  steps : List StepExec
  started_at : Option Nat
  completed_at : Option Nat
  ended_at : Option Nat
  deriving Repr, DecidableEq

/-- One row of `flow_versions`, restricted to what run creation reads. -/
structure FlowVersion where
  id : Nat
  status : FlowVersionStatus
  deriving Repr, DecidableEq

/-- Client errors raised by the run endpoints (`app/api/routes/runs.py`).
Each constructor mirrors one `HTTPException`; the payload is the state the
`detail` string names. -/
inductive RunErr
  | notFound
  | wrongStatus (current : RunStatus)
  | atFinalStep
  | wrongStep (current : Nat)
  | flowVersionNotFound
  | flowVersionNotPublished (current : FlowVersionStatus)
  | multipleStepRows
  deriving Repr, DecidableEq

/-- `POST /runs` (`create_run`), after the idempotency lookup came back
empty: validates that the pinned flow version exists and is PUBLISHED and
creates the run in IDLE at step 0. -/
def createRun (fv : Option FlowVersion) (run_code : String)
    (flow_version_id key : Nat) : Except RunErr Run :=
  match fv with
  | none => .error .flowVersionNotFound
  | some v =>
      if v.status ≠ FlowVersionStatus.PUBLISHED then
        .error (.flowVersionNotPublished v.status)
      else
        .ok { run_code := run_code
              flow_version_id := flow_version_id
              status := RunStatus.IDLE
              current_step_index := 0
              idempotency_key := key
              steps := []
              started_at := none
              completed_at := none
              ended_at := none }

/-- `POST /runs/{id}/start` (`start_run`): IDLE → RUNNING, creating the
step-0 execution. -/
def startRun (now uid : Nat) (run : Run) : Except RunErr Run :=
  if run.status ≠ RunStatus.IDLE then
    .error (.wrongStatus run.status)
  else
    .ok { run with
          status := RunStatus.RUNNING
          started_at := some now
          steps := run.steps ++
            [{ step_index := 0, node_id := "start"
               status := StepExecutionStatus.IN_PROGRESS
               started_at := some now, completed_at := none
               operator_id := uid }] }

/-- Mark the step execution(s) at `idx` COMPLETED (the handler updates the
single row returned by `scalar_one_or_none`; the `(run_id, step_index)`
unique constraint makes the map below touch exactly that row). -/
def markStepCompleted (now idx : Nat) (steps : List StepExec) : List StepExec :=
  steps.map fun s =>
    if s.step_index = idx then
      { s with status := StepExecutionStatus.COMPLETED, completed_at := some now }
    else s

/-- `POST /runs/{id}/advance` (`advance_step`): requires RUNNING and
`current_step_index < 10`; completes the current step execution, increments
the index and opens an IN_PROGRESS execution at the new index.  The QC and
HOLD-lot guards named in the docstring are `TODO` in the source and hence
absent here.  `scalar_one_or_none` raises on more than one matching step
row, aborting the transaction; that branch is `multipleStepRows`. -/
def advanceStep (now uid : Nat) (run : Run) : Except RunErr Run :=
  if run.status ≠ RunStatus.RUNNING then
    .error (.wrongStatus run.status)
  else if 10 ≤ run.current_step_index then
    .error .atFinalStep
  else if 2 ≤ (run.steps.filter
      (fun s => s.step_index = run.current_step_index)).length then
    .error .multipleStepRows
  else
    .ok { run with
          current_step_index := run.current_step_index + 1
          steps := markStepCompleted now run.current_step_index run.steps ++
            [{ step_index := run.current_step_index + 1
               node_id := String.append "step-" (Nat.repr (run.current_step_index + 1))
               status := StepExecutionStatus.IN_PROGRESS
               started_at := some now, completed_at := none
               operator_id := uid }] }

/-- `POST /runs/{id}/hold` (`hold_run`): RUNNING → HOLD. -/
def holdRun (run : Run) : Except RunErr Run :=
  if run.status ≠ RunStatus.RUNNING then
    .error (.wrongStatus run.status)
  else
    .ok { run with status := RunStatus.HOLD }

/-- `POST /runs/{id}/resume` (`resume_run`): HOLD → RUNNING. -/
def resumeRun (run : Run) : Except RunErr Run :=
  if run.status ≠ RunStatus.HOLD then
    .error (.wrongStatus run.status)
  else
    .ok { run with status := RunStatus.RUNNING }

/-- `POST /runs/{id}/complete` (`complete_run`): requires RUNNING at step
10; completes the step-10 execution and the run.  The all-QC-passed guard
named in the docstring is `TODO` in the source and hence absent here. -/
def completeRun (now : Nat) (run : Run) : Except RunErr Run :=
  if run.status ≠ RunStatus.RUNNING then
    .error (.wrongStatus run.status)
  else if run.current_step_index ≠ 10 then
    .error (.wrongStep run.current_step_index)
  else if 2 ≤ (run.steps.filter (fun s => s.step_index = 10)).length then
    .error .multipleStepRows
  else
    .ok { run with
          status := RunStatus.COMPLETED
          completed_at := some now
          ended_at := some now
          steps := markStepCompleted now 10 run.steps }

/-- `POST /runs/{id}/abort` (`abort_run`): RUNNING or HOLD → ABORTED. -/
def abortRun (now : Nat) (run : Run) : Except RunErr Run :=
  if run.status ≠ RunStatus.RUNNING ∧ run.status ≠ RunStatus.HOLD then
    .error (.wrongStatus run.status)
  else
    .ok { run with status := RunStatus.ABORTED, ended_at := some now }

/-- The six state transitions a client can request on an existing run. -/
inductive RunOp
  | start
  | advance
  | hold
  | resume
  | complete
  | abort
  deriving Repr, DecidableEq

/-- Dispatch one transition request. -/
def applyRunOp (now uid : Nat) (op : RunOp) (run : Run) : Except RunErr Run :=
  match op with
  | .start => startRun now uid run
  | .advance => advanceStep now uid run
  | .hold => holdRun run
  | .resume => resumeRun run
  | .complete => completeRun now run
  | .abort => abortRun now run

/-- One transition request as observed on the stored run: a rejected call
raises before any mutation, so the row is unchanged. -/
def runOpOrKeep (now uid : Nat) (run : Run) (op : RunOp) : Run :=
  match applyRunOp now uid op run with
  | .ok r => r
  | .error _ => run

/-! ## QC decisions and inspections -/

/-- `Decision` enum of the legacy QC decision model (`app/models/qc.py`). -/
inductive Decision
  | PASS
  | HOLD
  | FAIL
  deriving Repr, DecidableEq

/-- `InspectionDecision` enum of the step-indexed QC inspection schema
(`app/schemas/qc_inspection.py`). -/
inductive InspectionDecision
  | PASS
  | HOLD
  | FAIL
  deriving Repr, DecidableEq

/-- Python's `str.strip()`: drop leading and trailing whitespace. -/
def pyStrip (s : String) : String :=
  ⟨(((s.data.dropWhile Char.isWhitespace).reverse.dropWhile Char.isWhitespace).reverse)⟩

/-- The shared notes test of both `validate_notes_for_hold_fail` validators:
`not self.notes or len(self.notes.strip()) < 10` (true = notes unusable). -/
def notesMissingOrShort (notes : Option String) : Bool :=
  match notes with
  | none => true
  | some s => s = "" || (pyStrip s).length < 10

/-- `QCDecisionCreate.validate_notes_for_hold_fail`
(`app/schemas/qc.py`): `true` when the model validates. -/
def qcDecisionNotesValid (decision : Decision) (notes : Option String) : Bool :=
  !((decision = Decision.HOLD || decision = Decision.FAIL) &&
    notesMissingOrShort notes)

/-- `QCInspectionCreate.validate_notes_for_hold_fail`
(`app/schemas/qc_inspection.py`): `true` when the model validates. -/
def qcInspectionNotesValid (decision : InspectionDecision)
    (notes : Option String) : Bool :=
  !((decision = InspectionDecision.HOLD || decision = InspectionDecision.FAIL) &&
    notesMissingOrShort notes)

/-- Identify the two decision enums (their members coincide). -/
def decisionOfInspection : InspectionDecision → Decision
  | .PASS => .PASS
  | .HOLD => .HOLD
  | .FAIL => .FAIL

/-- One row of `qc_inspections` (`app/models/qc_inspection.py`). -/
structure QCInspection where
  id : Nat
  lot_id : Nat
  run_id : Nat
  step_index : Nat
  inspection_type : String
  is_ccp : Bool
  decision : InspectionDecision
  notes : Option String
  inspector_id : Nat
  idempotency_key : Nat
  deriving Repr, DecidableEq

/-- Body of `QCInspectionCreate` (already schema-validated). -/
structure QCInspectionCreate where
  lot_id : Nat
  run_id : Nat
  step_index : Nat
  inspection_type : String
  is_ccp : Bool
  decision : InspectionDecision
  notes : Option String
  deriving Repr, DecidableEq

/-- Errors of `POST /qc-inspections`. -/
inductive QCErr
  | duplicateKeyConflict
  deriving Repr, DecidableEq

/-- `POST /qc-inspections` (`create_qc_inspection`,
`app/api/routes/qc_inspections.py`): a duplicate idempotency key is a 409
CONFLICT, not a replay of the stored row. -/
def createQCInspection (insps : List QCInspection) (data : QCInspectionCreate)
    (uid key newId : Nat) : Except QCErr (List QCInspection × QCInspection) :=
  if (insps.find? (fun i => i.idempotency_key = key)).isSome then
    .error .duplicateKeyConflict
  else
    let row : QCInspection :=
      { id := newId, lot_id := data.lot_id, run_id := data.run_id
        step_index := data.step_index, inspection_type := data.inspection_type
        is_ccp := data.is_ccp, decision := data.decision, notes := data.notes
        inspector_id := uid, idempotency_key := key }
    .ok (insps ++ [row], row)

/-! ## Flow version forking -/

/-- One row of `flow_versions` as the fork endpoint sees it. -/
structure FlowVersionRow where
  id : Nat
  flow_definition_id : Nat
  version_num : Nat
  status : FlowVersionStatus
  graph_schema : String
  deriving Repr, DecidableEq

/-- Errors of `POST /flows/{flow_id}/versions/{version_num}/fork`. -/
inductive FlowErr
  | versionNotFound
  | draftAlreadyExists (version_num : Nat)
  deriving Repr, DecidableEq

/-- `fork_flow_version` (`app/api/routes/flows.py`): forking when a DRAFT
already exists for the flow is a 409 CONFLICT. -/
def forkFlowVersion (versions : List FlowVersionRow)
    (flow_id version_num uid newId : Nat) :
    Except FlowErr (List FlowVersionRow × FlowVersionRow) :=
  match versions.find? (fun v =>
      v.flow_definition_id = flow_id ∧ v.version_num = version_num) with
  | none => .error .versionNotFound
  | some source =>
      let maxVersion := ((versions.filter
        (fun v => v.flow_definition_id = flow_id)).map
          (fun v => v.version_num)).foldl Nat.max 0
      match versions.find? (fun v =>
          v.flow_definition_id = flow_id ∧ v.status = FlowVersionStatus.DRAFT) with
      | some existing_draft => .error (.draftAlreadyExists existing_draft.version_num)
      | none =>
          let row : FlowVersionRow :=
            { id := newId, flow_definition_id := flow_id
              version_num := maxVersion + 1, status := FlowVersionStatus.DRAFT
              graph_schema := source.graph_schema }
          let _ := uid
          .ok (versions ++ [row], row)

/-! ## Temperature logs and the violation trigger -/

/-- `MeasurementType` (`app/schemas/qc_inspection.py`). -/
inductive MeasurementType
  | SURFACE
  | CORE
  | AMBIENT
  deriving Repr, DecidableEq

/-- `TEMP_THRESHOLDS` dict (`app/schemas/qc_inspection.py`): SURFACE 4.0°C,
CORE −18.0°C, AMBIENT −18.0°C.  `Option` mirrors `dict.get`. -/
def TEMP_THRESHOLDS : MeasurementType → Option ℚ
  | .SURFACE => some 4
  | .CORE => some (-18)
  | .AMBIENT => some (-18)

/-- `check_violation` (`app/api/routes/temperature_logs.py`): a reading is a
violation when it is strictly greater than its type's threshold. -/
def checkViolation (temperature_c : ℚ) (measurement_type : MeasurementType) : Bool :=
  match TEMP_THRESHOLDS measurement_type with
  | none => false
  | some threshold => threshold < temperature_c

/-- One row of `lots`, restricted to what the violation trigger touches. -/
structure Lot where
  id : Nat
  lot_type : Option String
  status : LotStatus
  deriving Repr, DecidableEq

/-- One row of `audit_events`, restricted to the columns the violation
trigger inserts. -/
structure AuditEvent where
  event_type : String
  entity_type : String
  entity_id : Nat
  user_id : Nat
  deriving Repr, DecidableEq

/-- One row of `temperature_logs`. -/
structure TempLog where
  id : Nat
  lot_id : Option Nat
  buffer_id : Option Nat
  inspection_id : Option Nat
  temperature_c : ℚ
  measurement_type : MeasurementType
  is_violation : Bool
  recorded_by : Nat
  deriving Repr, DecidableEq

/-- Body of `TemperatureLogCreate` (before schema validation). -/
structure TemperatureLogCreate where
  lot_id : Option Nat
  buffer_id : Option Nat
  inspection_id : Option Nat
  temperature_c : ℚ
  measurement_type : MeasurementType
  deriving Repr, DecidableEq

/-- The tables `create_temperature_log` and its trigger touch. -/
structure TempState where
  lots : List Lot
  audit_events : List AuditEvent
  temp_logs : List TempLog
  deriving Repr, DecidableEq

/-- Pydantic rejection of `temperature_c` outside `[-50, 100]`. -/
inductive TempErr
  | temperatureOutOfRange
  deriving Repr, DecidableEq

/-- The lot statuses the trigger's `UPDATE ... WHERE status IN (...)` hits. -/
def tempHoldEligible (s : LotStatus) : Bool :=
  s = LotStatus.RELEASED || s = LotStatus.QUARANTINE || s = LotStatus.CREATED

/-- The trigger's `UPDATE lots SET status = HOLD WHERE id = lot AND status
IN (RELEASED, QUARANTINE, CREATED)`, applied to one row. -/
def holdLotUpdate (lid : Nat) (lo : Lot) : Lot :=
  if lo.id = lid ∧ tempHoldEligible lo.status then
    { lo with status := LotStatus.HOLD }
  else lo

/-- `handle_temp_violation` trigger
(`alembic/versions/20260124_phase84_02_add_audit_triggers.py`): fires after
each `temperature_logs` insert, in the same transaction.  On a violating
row with a lot attached it moves the lot to HOLD when its status is
RELEASED/QUARANTINE/CREATED and inserts one TEMP_VIOLATION_HOLD audit
event. -/
def handleTempViolation (log : TempLog) (st : TempState) : TempState :=
  if log.is_violation = true ∧ log.lot_id.isSome then
    match log.lot_id with
    | none => st
    | some lid =>
        { st with
          lots := st.lots.map (holdLotUpdate lid)
          audit_events := st.audit_events ++
            [{ event_type := "TEMP_VIOLATION_HOLD", entity_type := "lot"
               entity_id := lid, user_id := log.recorded_by }] }
  else st

/-- `POST /temperature-logs` (`create_temperature_log`) followed by the
`trg_temp_violation_hold` trigger, one transaction: schema range check,
server-side `is_violation`, insert, trigger. -/
def createTemperatureLog (st : TempState) (data : TemperatureLogCreate)
    (uid newId : Nat) : Except TempErr (TempState × TempLog) :=
  if data.temperature_c < -50 ∨ 100 < data.temperature_c then
    .error .temperatureOutOfRange
  else
    let violation := checkViolation data.temperature_c data.measurement_type
    let log : TempLog :=
      { id := newId, lot_id := data.lot_id, buffer_id := data.buffer_id
        inspection_id := data.inspection_id
        temperature_c := data.temperature_c
        measurement_type := data.measurement_type
        is_violation := violation, recorded_by := uid }
    let st1 := { st with temp_logs := st.temp_logs ++ [log] }
    .ok (handleTempViolation log st1, log)

/-! ## Buffer / inventory ledger (`app/api/routes/inventory.py`) -/

/-- One row of `buffers`, restricted to what the inventory routes read. -/
structure Buffer where
  id : Nat
  allowed_lot_types : List String
  is_active : Bool
  deriving Repr, DecidableEq

/-- One row of `inventory_items`. -/
structure InvItem where
  id : Nat
  lot_id : Nat
  buffer_id : Nat
  run_id : Nat
  quantity_kg : ℚ
  entered_at : Nat
  exited_at : Option Nat
  deriving Repr, DecidableEq

/-- One row of `stock_moves`. -/
structure StockMove where
  id : Nat
  lot_id : Nat
  from_buffer_id : Option Nat
  to_buffer_id : Option Nat
  quantity_kg : ℚ
  move_type : String
  operator_id : Nat
  idempotency_key : Nat
  created_at : Nat
  deriving Repr, DecidableEq

/-- The tables the inventory endpoints touch, plus the id sequence. -/
structure InvState where
  buffers : List Buffer
  lots : List Lot
  run_ids : List Nat
  items : List InvItem
  moves : List StockMove
  nextId : Nat
  deriving Repr, DecidableEq

/-- Client errors of the inventory endpoints; each constructor mirrors one
`HTTPException` (or a pydantic 422 / `MultipleResultsFound` abort), with
the state its `detail` string names. -/
inductive InvErr
  | invalidQuantity
  | bufferNotFound
  | bufferInactive
  | lotNotFound
  | lotTypeNotAllowed (lot_type : String) (allowed : List String)
  | runNotFound
  | lotNotInSourceBuffer
  | insufficientQuantity (available : ℚ)
  | multipleActiveItems
  deriving Repr, DecidableEq

/-- `check_idempotency`: look the idempotency key up among stock moves. -/
def findMoveByKey (st : InvState) (key : Nat) : Option StockMove :=
  st.moves.find? (fun m => m.idempotency_key = key)

/-- `validate_buffer_lot_type`: the buffer must exist and be active, the lot
must exist, and — when the lot has a type — that type must be a member of
`allowed_lot_types`. -/
def validateBufferLotType (st : InvState) (buffer_id lot_id : Nat) :
    Except InvErr Unit :=
  match st.buffers.find? (fun b => b.id = buffer_id) with
  | none => .error .bufferNotFound
  | some buffer =>
      if buffer.is_active = false then .error .bufferInactive
      else
        match st.lots.find? (fun l => l.id = lot_id) with
        | none => .error .lotNotFound
        | some lot =>
            match lot.lot_type with
            | none => .ok ()
            | some t =>
                if t ∉ buffer.allowed_lot_types then
                  .error (.lotTypeNotAllowed t buffer.allowed_lot_types)
                else .ok ()

/-- Body of `ReceiveRequest`. -/
structure ReceiveRequest where
  lot_id : Nat
  buffer_id : Nat
  run_id : Nat
  quantity_kg : ℚ
  deriving Repr, DecidableEq

/-- Body of `TransferRequest`. -/
structure TransferRequest where
  lot_id : Nat
  from_buffer_id : Nat
  to_buffer_id : Nat
  quantity_kg : ℚ
  deriving Repr, DecidableEq

/-- Body of `ConsumeRequest` (also used by `/inventory/ship`). -/
structure ConsumeRequest where
  lot_id : Nat
  buffer_id : Nat
  quantity_kg : ℚ
  deriving Repr, DecidableEq

/-- `POST /inventory/receive` (`receive_to_buffer`): idempotency replay,
buffer/lot-type validation, run existence, then one new open inventory
item and one RECEIVE stock move. -/
def receiveToBuffer (st : InvState) (data : ReceiveRequest)
    (uid key now : Nat) : Except InvErr (InvState × StockMove) :=
  if data.quantity_kg ≤ 0 then .error .invalidQuantity
  else
    match findMoveByKey st key with
    | some m => .ok (st, m)
    | none =>
        match validateBufferLotType st data.buffer_id data.lot_id with
        | .error e => .error e
        | .ok () =>
            if data.run_id ∉ st.run_ids then .error .runNotFound
            else
              let item : InvItem :=
                { id := st.nextId, lot_id := data.lot_id
                  buffer_id := data.buffer_id, run_id := data.run_id
                  quantity_kg := data.quantity_kg
                  entered_at := now, exited_at := none }
              let move : StockMove :=
                { id := st.nextId + 1, lot_id := data.lot_id
                  from_buffer_id := none, to_buffer_id := some data.buffer_id
                  quantity_kg := data.quantity_kg, move_type := "RECEIVE"
                  operator_id := uid, idempotency_key := key
                  created_at := now }
              let st' := { st with
                           items := st.items ++ [item]
                           moves := st.moves ++ [move]
                           nextId := st.nextId + 2 }
              .ok (st', move)

/-- The active (`exited_at IS NULL`) inventory rows for a (lot, buffer). -/
def activeItems (st : InvState) (lot_id buffer_id : Nat) : List InvItem :=
  st.items.filter (fun i =>
    i.lot_id = lot_id ∧ i.buffer_id = buffer_id ∧ i.exited_at = none)

/-- The single active source row, as `scalar_one_or_none` sees it: `none`
for no row, an error for more than one (the handler's transaction aborts). -/
def findSourceItem (st : InvState) (lot_id buffer_id : Nat) :
    Except InvErr (Option InvItem) :=
  match activeItems st lot_id buffer_id with
  | [] => .ok none
  | [i] => .ok (some i)
  | _ => .error .multipleActiveItems

/-- Shared partial/full-move update: decrement the source row, or close it
(`exited_at = now`) when the requested quantity drains it exactly. -/
def drainItem (st : InvState) (i : InvItem) (qty : ℚ) (now : Nat) :
    List InvItem :=
  st.items.map fun j =>
    if j.id = i.id then
      if i.quantity_kg = qty then { j with exited_at := some now }
      else { j with quantity_kg := j.quantity_kg - qty }
    else j

/-- `POST /inventory/transfer` (`transfer_between_buffers`). -/
def transferBetweenBuffers (st : InvState) (data : TransferRequest)
    (uid key now : Nat) : Except InvErr (InvState × StockMove) :=
  if data.quantity_kg ≤ 0 then .error .invalidQuantity
  else
    match findMoveByKey st key with
    | some m => .ok (st, m)
    | none =>
        match validateBufferLotType st data.to_buffer_id data.lot_id with
        | .error e => .error e
        | .ok () =>
            match findSourceItem st data.lot_id data.from_buffer_id with
            | .error e => .error e
            | .ok none => .error .lotNotInSourceBuffer
            | .ok (some source_item) =>
                if source_item.quantity_kg < data.quantity_kg then
                  .error (.insufficientQuantity source_item.quantity_kg)
                else
                  let new_item : InvItem :=
                    { id := st.nextId, lot_id := data.lot_id
                      buffer_id := data.to_buffer_id
                      run_id := source_item.run_id
                      quantity_kg := data.quantity_kg
                      entered_at := now, exited_at := none }
                  let move : StockMove :=
                    { id := st.nextId + 1, lot_id := data.lot_id
                      from_buffer_id := some data.from_buffer_id
                      to_buffer_id := some data.to_buffer_id
                      quantity_kg := data.quantity_kg, move_type := "TRANSFER"
                      operator_id := uid, idempotency_key := key
                      created_at := now }
                  .ok ({ st with
                         items := drainItem st source_item data.quantity_kg now
                           ++ [new_item],
                         moves := st.moves ++ [move]
                         nextId := st.nextId + 2 }, move)

/-- Common body of `/inventory/consume` and `/inventory/ship`: drain the
source row and append one stock move of the given type. -/
def consumeLike (move_type : String) (st : InvState) (data : ConsumeRequest)
    (uid key now : Nat) : Except InvErr (InvState × StockMove) :=
  if data.quantity_kg ≤ 0 then .error .invalidQuantity
  else
    match findMoveByKey st key with
    | some m => .ok (st, m)
    | none =>
        match findSourceItem st data.lot_id data.buffer_id with
        | .error e => .error e
        | .ok none => .error .lotNotInSourceBuffer
        | .ok (some item) =>
            if item.quantity_kg < data.quantity_kg then
              .error (.insufficientQuantity item.quantity_kg)
            else
              let move : StockMove :=
                { id := st.nextId, lot_id := data.lot_id
                  from_buffer_id := some data.buffer_id
                  to_buffer_id := none
                  quantity_kg := data.quantity_kg, move_type := move_type
                  operator_id := uid, idempotency_key := key
                  created_at := now }
              .ok ({ st with
                     items := drainItem st item data.quantity_kg now
                     moves := st.moves ++ [move]
                     nextId := st.nextId + 1 }, move)

/-- `POST /inventory/consume` (`consume_from_buffer`). -/
def consumeFromBuffer (st : InvState) (data : ConsumeRequest)
    (uid key now : Nat) : Except InvErr (InvState × StockMove) :=
  consumeLike "CONSUME" st data uid key now

/-- `POST /inventory/ship` (`ship_from_buffer`). -/
def shipFromBuffer (st : InvState) (data : ConsumeRequest)
    (uid key now : Nat) : Except InvErr (InvState × StockMove) :=
  consumeLike "SHIP" st data uid key now

/-- One inventory request. -/
inductive InvOp
  | receive (data : ReceiveRequest) (uid key now : Nat)
  | transfer (data : TransferRequest) (uid key now : Nat)
  | consume (data : ConsumeRequest) (uid key now : Nat)
  | ship (data : ConsumeRequest) (uid key now : Nat)
  deriving Repr, DecidableEq

/-- Dispatch one inventory request. -/
def applyInvOp (st : InvState) (op : InvOp) : Except InvErr (InvState × StockMove) :=
  match op with
  | .receive data uid key now => receiveToBuffer st data uid key now
  | .transfer data uid key now => transferBetweenBuffers st data uid key now
  | .consume data uid key now => consumeFromBuffer st data uid key now
  | .ship data uid key now => shipFromBuffer st data uid key now

/-- One inventory request as observed on the stored state: a rejected call
raises before any mutation, so the tables are unchanged. -/
def invOpOrKeep (st : InvState) (op : InvOp) : InvState :=
  match applyInvOp st op with
  | .ok (st', _) => st'
  | .error _ => st

/-- Per-item contribution to the open quantity of a lot. -/
def openContrib (lot_id : Nat) (i : InvItem) : ℚ :=
  if i.lot_id = lot_id ∧ i.exited_at = none then i.quantity_kg else 0

/-- Sum of `quantity_kg` over the open inventory items of a lot. -/
def openQty (lot_id : Nat) (items : List InvItem) : ℚ :=
  (items.map (openContrib lot_id)).sum

/-- Per-move contribution to a lot's total for one move type. -/
def moveContrib (lot_id : Nat) (move_type : String) (m : StockMove) : ℚ :=
  if m.lot_id = lot_id ∧ m.move_type = move_type then m.quantity_kg else 0

/-- Total quantity moved for a lot under one move type. -/
def moveTotal (lot_id : Nat) (move_type : String) (moves : List StockMove) : ℚ :=
  (moves.map (moveContrib lot_id move_type)).sum

/-- Quantity-conservation statement for one lot in one state: open quantity
equals total received minus total consumed and shipped. -/
def conserves (lot_id : Nat) (st : InvState) : Prop :=
  openQty lot_id st.items =
    moveTotal lot_id "RECEIVE" st.moves -
      (moveTotal lot_id "CONSUME" st.moves + moveTotal lot_id "SHIP" st.moves)

/-- Well-formedness the id sequence guarantees: inventory-item row ids are
distinct and below the sequence value. -/
def invWF (st : InvState) : Prop :=
  (st.items.map (fun i => i.id)).Nodup ∧ ∀ i ∈ st.items, i.id < st.nextId

/-! ## Lot genealogy traversal (`app/api/routes/genealogy.py`) -/

/-- One row of `lot_genealogy`: a directed `parent → child` edge.  The `id`
distinguishes duplicate rows over the same pair, and carries the row
identity the object-level membership tests (`link not in all_links`,
`lot not in nodes`) compare by. -/
structure GenLink where
  id : Nat
  parent_lot_id : Nat
  child_lot_id : Nat
  quantity_used_kg : ℚ
  deriving Repr, DecidableEq

/-- One `db.execute` of a level: the links whose `key` end (child for the
parents query, parent for the children query) lies in the current
frontier. -/
def levelLinks (edges : List GenLink) (key : GenLink → Nat)
    (cur : List Nat) : List GenLink :=
  edges.filter (fun e => decide (key e ∈ cur))

/-- One iteration of the per-level node loop: `if link.<end> not in
nodes: nodes.append; next_ids.add`. -/
def addLevelStep (val : GenLink → Nat) (acc : List Nat × List Nat)
    (l : GenLink) : List Nat × List Nat :=
  if val l ∈ acc.1 then acc else (acc.1 ++ [val l], acc.2 ++ [val l])

/-- The per-level node loop: `for link in level_links: if link.<end> not in
nodes: nodes.append; next_ids.add`.  Returns the grown node list and the
new frontier. -/
def addLevel (val : GenLink → Nat) (nodes : List Nat)
    (lvl : List GenLink) : List Nat × List Nat :=
  lvl.foldl (addLevelStep val) (nodes, [])

/-- `for link in level_links: if link not in all_links: all_links.append` —
the duplicate-link filter of the tree query's forward pass. -/
def dedupAppend (links lvl : List GenLink) : List GenLink :=
  lvl.foldl (fun acc l => if l ∈ acc then acc else acc ++ [l]) links

/-- The bounded breadth-first loop shared by the parents query, the
children query and both passes of the tree query: at most `fuel` levels,
each level one link fetch, breaking on an empty frontier or an empty
fetch.  Returns the node list, the link list and the number of fetches. -/
def bfsAux (edges : List GenLink) (key val : GenLink → Nat) (dedup : Bool) :
    Nat → List Nat → List Nat → List GenLink → Nat →
      List Nat × List GenLink × Nat
  | 0, _cur, nodes, links, fetches => (nodes, links, fetches)
  | fuel + 1, cur, nodes, links, fetches =>
    if cur.isEmpty then (nodes, links, fetches)
    else
      let lvl := levelLinks edges key cur
      if lvl.isEmpty then (nodes, links, fetches + 1)
      else
        let links' := if dedup then dedupAppend links lvl else links ++ lvl
        let p := addLevel val nodes lvl
        bfsAux edges key val dedup fuel p.2 p.1 links' (fetches + 1)

/-- Parents query direction: fetch by child, follow to parent. -/
def keyParents (e : GenLink) : Nat := e.child_lot_id

/-- Parents query direction: the node reached is the parent. -/
def valParents (e : GenLink) : Nat := e.parent_lot_id

/-- Children query direction: fetch by parent, follow to child. -/
def keyChildren (e : GenLink) : Nat := e.parent_lot_id

/-- Children query direction: the node reached is the child. -/
def valChildren (e : GenLink) : Nat := e.child_lot_id

/-- Client errors of the genealogy endpoints. -/
inductive GenErr
  | invalidDepth
  | lotNotFound
  deriving Repr, DecidableEq

/-- `GET /genealogy/{lot_id}/parents` (`get_parent_lots`): depth must lie
in 1..10; result is (node ids, links, fetch count). -/
def getParentLots (lots : List Nat) (edges : List GenLink)
    (lot_id depth : Nat) : Except GenErr (List Nat × List GenLink × Nat) :=
  if depth < 1 ∨ 10 < depth then .error .invalidDepth
  else if lot_id ∉ lots then .error .lotNotFound
  else .ok (bfsAux edges keyParents valParents false depth [lot_id] [] [] 0)

/-- `GET /genealogy/{lot_id}/children` (`get_child_lots`): depth 1..10. -/
def getChildLots (lots : List Nat) (edges : List GenLink)
    (lot_id depth : Nat) : Except GenErr (List Nat × List GenLink × Nat) :=
  if depth < 1 ∨ 10 < depth then .error .invalidDepth
  else if lot_id ∉ lots then .error .lotNotFound
  else .ok (bfsAux edges keyChildren valChildren false depth [lot_id] [] [] 0)

/-- Result of the combined tree query. -/
structure TreeResult where
  nodes : List Nat
  links : List GenLink
  backward_fetches : Nat
  forward_fetches : Nat
  deriving Repr, DecidableEq

/-- `GET /genealogy/{lot_id}/tree` (`get_full_genealogy_tree`): depth must
lie in 1..5; a backward pass from the lot, then a forward pass sharing the
node map (`all_nodes`) and link list but its own frontier, with the
duplicate-link filter on. -/
def getFullGenealogyTree (lots : List Nat) (edges : List GenLink)
    (lot_id depth : Nat) : Except GenErr TreeResult :=
  if depth < 1 ∨ 5 < depth then .error .invalidDepth
  else if lot_id ∉ lots then .error .lotNotFound
  else
    let back := bfsAux edges keyParents valParents false depth [lot_id] [] [] 0
    let fwd := bfsAux edges keyChildren valChildren true depth [lot_id]
      back.1 back.2.1 0
    .ok { nodes := fwd.1, links := fwd.2.1
          backward_fetches := back.2.2, forward_fetches := fwd.2.2 }

/-- Directed paths over the edge rows: `GPath edges key val r k v` holds
when `k` successive links lead from `r` to `v` in the (`key` → `val`)
direction. -/
inductive GPath (edges : List GenLink) (key val : GenLink → Nat) :
    Nat → Nat → Nat → Prop
  | zero (r : Nat) : GPath edges key val r 0 r
  | succ {r k u : Nat} {e : GenLink} (h : GPath edges key val r k u)
      (he : e ∈ edges) (hk : key e = u) : GPath edges key val r (k + 1) (val e)

/-- `v` is reachable from `r` by a path of some length in `[1, M]`. -/
def reachWithin (edges : List GenLink) (key val : GenLink → Nat)
    (r M v : Nat) : Prop :=
  ∃ k, 1 ≤ k ∧ k ≤ M ∧ GPath edges key val r k v

/-- `i` is the least positive path length from `r` to `v`. -/
def minGPath (edges : List GenLink) (key val : GenLink → Nat)
    (r i v : Nat) : Prop :=
  GPath edges key val r i v ∧
    ∀ j, 1 ≤ j → j < i → ¬ GPath edges key val r j v

/-- Specification of the BFS frontier after `i` completed levels: the root
alone at level 0, afterwards the lots first reachable at exactly `i`. -/
def frontSpec (edges : List GenLink) (key val : GenLink → Nat)
    (r i v : Nat) : Prop :=
  if i = 0 then v = r else minGPath edges key val r i v

/-- Specification of the visited node list after `i` completed levels:
the seeded nodes plus everything reachable within `i` levels. -/
def nodesSpec (edges : List GenLink) (key val : GenLink → Nat)
    (seed : List Nat) (r i v : Nat) : Prop :=
  v ∈ seed ∨ ∃ k, 1 ≤ k ∧ k ≤ i ∧ GPath edges key val r k v

/-! ## Derived endpoint wrappers and counting helpers -/

/-- `POST /runs` (`create_run`) including its leading idempotency lookup:
a stored run with the same key is returned unchanged; otherwise the
PUBLISHED check runs and a new row is appended. -/
def createRunEndpoint (runs : List Run) (fv : Option FlowVersion)
    (run_code : String) (flow_version_id key : Nat) :
    Except RunErr (List Run × Run) :=
  match runs.find? (fun r => r.idempotency_key = key) with
  | some existing => .ok (runs, existing)
  | none =>
      match createRun fv run_code flow_version_id key with
      | .error e => .error e
      | .ok r => .ok (runs ++ [r], r)

/-- `advance_step` as the handler sees its database context: the QC
inspections and the lots of the run's current step are available to it,
but the source's two `TODO` guards never query them, so the context is
ignored. -/
def advanceStepWithQCContext (qcAtStep : List QCInspection)
    (lotsAtStep : List Lot) (now uid : Nat) (run : Run) : Except RunErr Run :=
  let _ := qcAtStep
  let _ := lotsAtStep
  advanceStep now uid run

/-- `complete_run` as the handler sees its database context: the run's QC
inspections are available, but the source's `TODO: Verify all QC passed`
never queries them. -/
def completeRunWithQCContext (qcOfRun : List QCInspection) (now : Nat)
    (run : Run) : Except RunErr Run :=
  let _ := qcOfRun
  completeRun now run

/-- Number of TEMP_VIOLATION_HOLD audit events recorded for one lot. -/
def countTempHoldEvents (events : List AuditEvent) (lot_id : Nat) : Nat :=
  (events.filter (fun e =>
    e.event_type = "TEMP_VIOLATION_HOLD" ∧ e.entity_id = lot_id)).length

/-! ## Concrete instances for witnesses and counterexamples -/

/-- A PUBLISHED flow version. -/
def fvPub : FlowVersion := ⟨1, FlowVersionStatus.PUBLISHED⟩

/-- A DRAFT flow version. -/
def fvDraft : FlowVersion := ⟨2, FlowVersionStatus.DRAFT⟩

/-- A freshly created IDLE run. -/
def runIdle : Run :=
  { run_code := "R-1", flow_version_id := 1, status := RunStatus.IDLE
    current_step_index := 0, idempotency_key := 1, steps := []
    started_at := none, completed_at := none, ended_at := none }

/-- The open step-3 execution of `runAt3`. -/
def exec3 : StepExec :=
  { step_index := 3, node_id := "step-3"
    status := StepExecutionStatus.IN_PROGRESS
    started_at := some 3, completed_at := none, operator_id := 9 }

/-- A RUNNING run at step 3. -/
def runAt3 : Run :=
  { run_code := "R-1", flow_version_id := 1, status := RunStatus.RUNNING
    current_step_index := 3, idempotency_key := 1, steps := [exec3]
    started_at := some 0, completed_at := none, ended_at := none }

/-- The open step-10 execution of `runAt10`. -/
def exec10 : StepExec :=
  { step_index := 10, node_id := "step-10"
    status := StepExecutionStatus.IN_PROGRESS
    started_at := some 10, completed_at := none, operator_id := 9 }

/-- A RUNNING run at the final step 10. -/
def runAt10 : Run :=
  { run_code := "R-1", flow_version_id := 1, status := RunStatus.RUNNING
    current_step_index := 10, idempotency_key := 1, steps := [exec10]
    started_at := some 0, completed_at := none, ended_at := none }

/-- A FAIL inspection pending at step 3 of run 1. -/
def qcFailAt3 : QCInspection :=
  { id := 21, lot_id := 5, run_id := 1, step_index := 3
    inspection_type := "VISUAL", is_ccp := true
    decision := InspectionDecision.FAIL, notes := some "metal fragments"
    inspector_id := 9, idempotency_key := 7 }

/-- A lot sitting at step 3 in HOLD status. -/
def lotOnHold : Lot := ⟨5, some "MIX", LotStatus.HOLD⟩

/-- An inspection already stored under idempotency key 7. -/
def storedInspections : List QCInspection := [qcFailAt3]

/-- A fresh inspection request replayed under the stored key 7. -/
def qcReqEx : QCInspectionCreate :=
  { lot_id := 5, run_id := 1, step_index := 3, inspection_type := "VISUAL"
    is_ccp := true, decision := InspectionDecision.FAIL
    notes := some "metal fragments" }

/-- A RELEASED lot for the temperature-violation scenario. -/
def lotReleased : Lot := ⟨5, some "RAW", LotStatus.RELEASED⟩

/-- Temperature-gate state holding just `lotReleased`. -/
def tempSt : TempState := ⟨[lotReleased], [], []⟩

/-- An active buffer accepting RAW lots. -/
def bufA : Buffer := ⟨1, ["RAW"], true⟩

/-- An active buffer accepting MIX lots only. -/
def bufMix : Buffer := ⟨2, ["MIX"], true⟩

/-- An empty inventory state over `bufA`, `bufMix`, `lotReleased`, run 1. -/
def invSt0 : InvState :=
  { buffers := [bufA, bufMix], lots := [lotReleased], run_ids := [1]
    items := [], moves := [], nextId := 10 }

/-- An open 50 kg inventory item of lot 5 in buffer 1. -/
def item50 : InvItem :=
  { id := 10, lot_id := 5, buffer_id := 1, run_id := 1
    quantity_kg := 50, entered_at := 0, exited_at := none }

/-- The RECEIVE move that created `item50`. -/
def move50 : StockMove :=
  { id := 11, lot_id := 5, from_buffer_id := none, to_buffer_id := some 1
    quantity_kg := 50, move_type := "RECEIVE", operator_id := 9
    idempotency_key := 100, created_at := 0 }

/-- Inventory state after receiving 50 kg of lot 5 into buffer 1. -/
def invSt1 : InvState :=
  { buffers := [bufA, bufMix], lots := [lotReleased], run_ids := [1]
    items := [item50], moves := [move50], nextId := 12 }

/-- A hot SURFACE reading (5.5 °C) attached to lot 5. -/
def hotReq : TemperatureLogCreate :=
  ⟨some 5, none, none, mkRat 11 2, MeasurementType.SURFACE⟩

/-- A compliant SURFACE reading (3.5 °C) attached to lot 5. -/
def coldReq : TemperatureLogCreate :=
  ⟨some 5, none, none, mkRat 7 2, MeasurementType.SURFACE⟩

/-- The stored row for `hotReq`. -/
def logHot : TempLog :=
  ⟨100, some 5, none, none, mkRat 11 2, MeasurementType.SURFACE, true, 9⟩

/-- The stored row for `coldReq`. -/
def logCold : TempLog :=
  ⟨100, some 5, none, none, mkRat 7 2, MeasurementType.SURFACE, false, 9⟩

/-- State after inserting `hotReq` into `tempSt`: lot 5 on HOLD, one
TEMP_VIOLATION_HOLD audit event. -/
def tempStHot : TempState :=
  ⟨[⟨5, some "RAW", LotStatus.HOLD⟩],
   [⟨"TEMP_VIOLATION_HOLD", "lot", 5, 9⟩], [logHot]⟩

/-- State after inserting `coldReq` into `tempSt`: unchanged but for the
log row. -/
def tempStCold : TempState := ⟨[lotReleased], [], [logCold]⟩

/-- The lots known to the genealogy example. -/
def exLots : List Nat := [0, 1, 2]

/-- Genealogy edges forming a 2-cycle through lot 0 (0 ⇄ 1) plus a child 2
of lot 1: lot 1 is both a parent and a child of the root 0. -/
def exEdges : List GenLink :=
  [⟨1, 1, 0, 1⟩, ⟨2, 0, 1, 1⟩, ⟨3, 1, 2, 1⟩]

/-! ## Theorems -/

/-- C1.  Run state-machine legality: `start` succeeds only from IDLE,
`complete` only from RUNNING at step 10, `abort` only from RUNNING or
HOLD, `resume` only from HOLD, and `create` only from a PUBLISHED flow
version; a violating call is rejected with a client error carrying the
current state, and a rejected call leaves the run unchanged. -/
theorem C1_run_state_machine_legality :
    ∀ (run : Run) (now uid : Nat) (fv : FlowVersion) (rc : String)
      (fvid key : Nat),
      (∀ r, startRun now uid run = .ok r → run.status = RunStatus.IDLE) ∧
      (run.status ≠ RunStatus.IDLE →
        startRun now uid run = .error (.wrongStatus run.status)) ∧
      (∀ r, completeRun now run = .ok r →
        run.status = RunStatus.RUNNING ∧ run.current_step_index = 10) ∧
      (run.status ≠ RunStatus.RUNNING →
        completeRun now run = .error (.wrongStatus run.status)) ∧
      (run.status = RunStatus.RUNNING → run.current_step_index ≠ 10 →
        completeRun now run = .error (.wrongStep run.current_step_index)) ∧
      (∀ r, abortRun now run = .ok r →
        run.status = RunStatus.RUNNING ∨ run.status = RunStatus.HOLD) ∧
      (run.status ≠ RunStatus.RUNNING → run.status ≠ RunStatus.HOLD →
        abortRun now run = .error (.wrongStatus run.status)) ∧
      (∀ r, resumeRun run = .ok r → run.status = RunStatus.HOLD) ∧
      (run.status ≠ RunStatus.HOLD →
        resumeRun run = .error (.wrongStatus run.status)) ∧
      (∀ r, createRun (some fv) rc fvid key = .ok r →
        fv.status = FlowVersionStatus.PUBLISHED) ∧
      (fv.status ≠ FlowVersionStatus.PUBLISHED →
        createRun (some fv) rc fvid key =
          .error (.flowVersionNotPublished fv.status)) ∧
      (∀ op e, applyRunOp now uid op run = .error e →
        runOpOrKeep now uid run op = run) := by
  intro run now uid fv rc fvid key
  refine ⟨?_, ?_, ?_, ?_, ?_, ?_, ?_, ?_, ?_, ?_, ?_, ?_⟩
  · intro r h
    by_cases hs : run.status = RunStatus.IDLE
    · exact hs
    · simp [startRun, hs] at h
  · intro hs
    simp [startRun, hs]
  · intro r h
    by_cases hs : run.status = RunStatus.RUNNING
    · by_cases hi : run.current_step_index = 10
      · exact ⟨hs, hi⟩
      · simp [completeRun, hs, hi] at h
    · simp [completeRun, hs] at h
  · intro hs
    simp [completeRun, hs]
  · intro hs hi
    simp [completeRun, hs, hi]
  · intro r h
    by_cases hs : run.status = RunStatus.RUNNING
    · exact Or.inl hs
    · by_cases hh : run.status = RunStatus.HOLD
      · exact Or.inr hh
      · simp [abortRun, hs, hh] at h
  · intro hs hh
    simp [abortRun, hs, hh]
  · intro r h
    by_cases hs : run.status = RunStatus.HOLD
    · exact hs
    · simp [resumeRun, hs] at h
  · intro hs
    simp [resumeRun, hs]
  · intro r h
    by_cases hs : fv.status = FlowVersionStatus.PUBLISHED
    · exact hs
    · simp [createRun, hs] at h
  · intro hs
    simp [createRun, hs]
  · intro op e h
    simp [runOpOrKeep, h]

/-- C1 witness: on a RUNNING run, `start` is rejected naming the RUNNING
state, and the rejected `start` leaves the run unchanged. -/
theorem C1_run_state_machine_legality_witness :
    startRun 0 9 runAt3 = .error (.wrongStatus RunStatus.RUNNING) ∧
      runOpOrKeep 0 9 runAt3 .start = runAt3 := by
  have h := C1_run_state_machine_legality runAt3 0 9 fvPub "R-1" 1 1
  refine ⟨?_, ?_⟩
  · have := h.2.1 (by decide)
    simpa using this
  · exact h.2.2.2.2.2.2.2.2.2.2.2 .start (.wrongStatus RunStatus.RUNNING)
      (by have := h.2.1 (by decide); simpa [applyRunOp] using this)

/-- Inversion of a successful `advance`. -/
theorem advanceStep_ok_inv {now uid : Nat} {run r' : Run}
    (h : advanceStep now uid run = .ok r') :
    run.status = RunStatus.RUNNING ∧ run.current_step_index < 10 ∧
      r' = { run with
             current_step_index := run.current_step_index + 1
             steps := markStepCompleted now run.current_step_index run.steps ++
               [{ step_index := run.current_step_index + 1
                  node_id := String.append "step-"
                    (Nat.repr (run.current_step_index + 1))
                  status := StepExecutionStatus.IN_PROGRESS
                  started_at := some now, completed_at := none
                  operator_id := uid }] } := by
  unfold advanceStep at h
  split_ifs at h with h1 h2 h3
  cases h
  exact ⟨not_not.mp h1, by omega, rfl⟩

/-- A single observed transition never decreases the step index, and
increments it only below 10. -/
theorem runOpOrKeep_idx (now uid : Nat) (run : Run) (op : RunOp) :
    (runOpOrKeep now uid run op).current_step_index = run.current_step_index ∨
      ((runOpOrKeep now uid run op).current_step_index =
          run.current_step_index + 1 ∧ run.current_step_index < 10) := by
  unfold runOpOrKeep
  cases hr : applyRunOp now uid op run with
  | error e => exact Or.inl rfl
  | ok r2 =>
      cases op with
      | start =>
          simp only [applyRunOp] at hr
          unfold startRun at hr
          split_ifs at hr
          cases hr
          exact Or.inl rfl
      | advance =>
          simp only [applyRunOp] at hr
          obtain ⟨-, hlt, rfl⟩ := advanceStep_ok_inv hr
          exact Or.inr ⟨rfl, hlt⟩
      | hold =>
          simp only [applyRunOp] at hr
          unfold holdRun at hr
          split_ifs at hr
          cases hr
          exact Or.inl rfl
      | resume =>
          simp only [applyRunOp] at hr
          unfold resumeRun at hr
          split_ifs at hr
          cases hr
          exact Or.inl rfl
      | complete =>
          simp only [applyRunOp] at hr
          unfold completeRun at hr
          split_ifs at hr
          cases hr
          exact Or.inl rfl
      | abort =>
          simp only [applyRunOp] at hr
          unfold abortRun at hr
          split_ifs at hr
          cases hr
          exact Or.inl rfl

/-- Over any observed sequence the step index is monotone and stays ≤ 10. -/
theorem runOps_foldl_idx (ops : List (RunOp × Nat × Nat)) :
    ∀ run : Run,
      run.current_step_index ≤
        (ops.foldl (fun r p => runOpOrKeep p.2.1 p.2.2 r p.1) run).current_step_index ∧
      (run.current_step_index ≤ 10 →
        (ops.foldl (fun r p => runOpOrKeep p.2.1 p.2.2 r p.1) run).current_step_index ≤ 10) := by
  induction ops with
  | nil => intro run; exact ⟨Nat.le_refl _, fun h => h⟩
  | cons p ops ih =>
      intro run
      have h1 := runOpOrKeep_idx p.2.1 p.2.2 run p.1
      have h2 := ih (runOpOrKeep p.2.1 p.2.2 run p.1)
      constructor
      · refine Nat.le_trans ?_ h2.1
        rcases h1 with h | ⟨h, -⟩ <;> omega
      · intro hle
        refine h2.2 ?_
        rcases h1 with h | ⟨h, hlt⟩ <;> omega

/-- C2.  Step monotonicity: over any sequence of observed transitions the
step index never decreases and never exceeds 10; `advance` at index 10 is
rejected leaving the run unchanged; a successful `advance` adds exactly 1,
marks the previous step execution COMPLETED and creates a new IN_PROGRESS
execution at the new index. -/
theorem C2_step_monotonicity :
    ∀ (run : Run) (now uid : Nat) (ops : List (RunOp × Nat × Nat)) (r' : Run),
      (run.current_step_index ≤ 10 →
        (ops.foldl (fun r p => runOpOrKeep p.2.1 p.2.2 r p.1)
          run).current_step_index ≤ 10) ∧
      run.current_step_index ≤
        (ops.foldl (fun r p => runOpOrKeep p.2.1 p.2.2 r p.1)
          run).current_step_index ∧
      (run.current_step_index = 10 →
        (∃ e, advanceStep now uid run = .error e) ∧
          runOpOrKeep now uid run .advance = run) ∧
      (advanceStep now uid run = .ok r' →
        r'.current_step_index = run.current_step_index + 1 ∧
        (∀ e ∈ run.steps, e.step_index = run.current_step_index →
          ({ e with
             status := StepExecutionStatus.COMPLETED
             completed_at := some now } : StepExec) ∈ r'.steps) ∧
        (∃ ne ∈ r'.steps, ne.step_index = run.current_step_index + 1 ∧
          ne.status = StepExecutionStatus.IN_PROGRESS)) := by
  intro run now uid ops r'
  refine ⟨(runOps_foldl_idx ops run).2, (runOps_foldl_idx ops run).1, ?_, ?_⟩
  · intro h10
    by_cases hs : run.status = RunStatus.RUNNING
    · have he : advanceStep now uid run = .error .atFinalStep := by
        simp [advanceStep, hs, h10]
      exact ⟨⟨_, he⟩, by simp [runOpOrKeep, applyRunOp, he]⟩
    · have he : advanceStep now uid run = .error (.wrongStatus run.status) := by
        simp [advanceStep, hs]
      exact ⟨⟨_, he⟩, by simp [runOpOrKeep, applyRunOp, he]⟩
  · intro h
    obtain ⟨hs, hlt, rfl⟩ := advanceStep_ok_inv h
    refine ⟨rfl, ?_, ?_⟩
    · intro e he hidx
      simp only [List.mem_append]
      left
      unfold markStepCompleted
      refine List.mem_map.mpr ⟨e, he, ?_⟩
      simp [hidx]
    · refine ⟨_, List.mem_append.mpr (Or.inr (List.mem_singleton.mpr rfl)), rfl, rfl⟩

/-- C2 witness: at step 10 the `advance` of `runAt10` is rejected and the
run is unchanged, and from `runAt3` a successful advance moves to step 4
with the step-3 execution completed and a new step-4 execution open. -/
theorem C2_step_monotonicity_witness :
    ((∃ e, advanceStep 7 9 runAt10 = .error e) ∧
      runOpOrKeep 7 9 runAt10 .advance = runAt10) ∧
      (∀ r', advanceStep 7 9 runAt3 = .ok r' →
        r'.current_step_index = 4) := by
  constructor
  · exact (C2_step_monotonicity runAt10 7 9 [] runAt10).2.2.1 (by decide)
  · intro r' h
    have := (C2_step_monotonicity runAt3 7 9 [] r').2.2.2 h
    simpa [runAt3] using this.1

/-- C8.  The advance/complete QC guards are absent: at the concrete state
`runAt3` with a FAIL inspection pending at the current step and a lot on
HOLD at that step, `advance` succeeds, and at `runAt10` with a FAIL
inspection for the run, `complete` succeeds — the source leaves both
guards as `TODO`, contradicting its own docstrings and the claim. -/
theorem C8_qc_guards_not_enforced :
    qcFailAt3.decision = InspectionDecision.FAIL ∧
      qcFailAt3.step_index = runAt3.current_step_index ∧
      lotOnHold.status = LotStatus.HOLD ∧
      advanceStepWithQCContext [qcFailAt3] [lotOnHold] 7 9 runAt3 =
        .ok { runAt3 with
              current_step_index := 4
              steps := [{ exec3 with
                          status := StepExecutionStatus.COMPLETED
                          completed_at := some 7 },
                { step_index := 4, node_id := "step-4"
                  status := StepExecutionStatus.IN_PROGRESS
                  started_at := some 7, completed_at := none
                  operator_id := 9 }] } ∧
      completeRunWithQCContext [qcFailAt3] 7 runAt10 =
        .ok { runAt10 with
              status := RunStatus.COMPLETED
              completed_at := some 7
              ended_at := some 7
              steps := [{ exec10 with
                          status := StepExecutionStatus.COMPLETED
                          completed_at := some 7 }] } := by
  refine ⟨rfl, rfl, rfl, ?_, ?_⟩ <;> rfl

/-- Dropping a while-prefix can only shorten a list. -/
theorem length_dropWhile_le {α : Type} (p : α → Bool) (l : List α) :
    (l.dropWhile p).length ≤ l.length := by
  induction l with
  | nil => simp
  | cons a t ih =>
      by_cases h : p a = true
      · simp only [List.dropWhile_cons, h, if_pos]
        exact Nat.le_trans ih (Nat.le_succ _)
      · simp [List.dropWhile_cons, h]

/-- The stripped prefix/suffix can only shorten a string. -/
theorem pyStrip_length_le (s : String) : (pyStrip s).length ≤ s.length := by
  unfold pyStrip
  unfold String.length
  simp only [List.length_reverse]
  calc ((s.data.dropWhile Char.isWhitespace).reverse.dropWhile
          Char.isWhitespace).length
      ≤ (s.data.dropWhile Char.isWhitespace).reverse.length :=
        length_dropWhile_le _ _
    _ = (s.data.dropWhile Char.isWhitespace).length := List.length_reverse _
    _ ≤ s.data.length := length_dropWhile_le _ _

/-- C9 counterexample: `"a23456789 "` is exactly 10 characters, yet a HOLD
decision carrying it is rejected by both validators, because they compare
the length of the whitespace-stripped notes against 10. -/
theorem C9_qc_notes_counterexample :
    ("a23456789 ").length = 10 ∧
      qcInspectionNotesValid InspectionDecision.HOLD (some "a23456789 ") = false ∧
      qcDecisionNotesValid Decision.HOLD (some "a23456789 ") = false := by
  refine ⟨by decide, by decide, by decide⟩

/-- C9 (amended).  For both validators: HOLD/FAIL with absent notes, notes
shorter than 10 characters, or notes whose whitespace-stripped length is
below 10, are rejected; notes of exactly 10 characters are accepted when
stripping changes nothing (no leading/trailing whitespace); PASS needs no
notes; and the two endpoint validators implement the identical rule. -/
theorem C9_qc_notes_requirement :
    ∀ (d : Decision) (di : InspectionDecision) (notes : Option String)
      (s : String),
      ((d = Decision.HOLD ∨ d = Decision.FAIL) →
        (notes = none → qcDecisionNotesValid d notes = false) ∧
        (∀ t, notes = some t → t.length < 10 →
          qcDecisionNotesValid d notes = false)) ∧
      ((di = InspectionDecision.HOLD ∨ di = InspectionDecision.FAIL) →
        (notes = none → qcInspectionNotesValid di notes = false) ∧
        (∀ t, notes = some t → t.length < 10 →
          qcInspectionNotesValid di notes = false)) ∧
      (s.length = 10 → pyStrip s = s →
        qcDecisionNotesValid d (some s) = true ∧
          qcInspectionNotesValid di (some s) = true) ∧
      qcDecisionNotesValid Decision.PASS notes = true ∧
      qcInspectionNotesValid InspectionDecision.PASS notes = true ∧
      qcDecisionNotesValid (decisionOfInspection di) notes =
        qcInspectionNotesValid di notes := by
  intro d di notes s
  have hshort : ∀ t : String, t.length < 10 → notesMissingOrShort (some t) = true := by
    intro t ht
    have := pyStrip_length_le t
    simp only [notesMissingOrShort, Bool.or_eq_true, decide_eq_true_eq]
    right
    omega
  refine ⟨?_, ?_, ?_, ?_, ?_, ?_⟩
  · intro hd
    constructor
    · rintro rfl
      rcases hd with rfl | rfl <;> simp [qcDecisionNotesValid, notesMissingOrShort]
    · rintro t rfl ht
      rcases hd with rfl | rfl <;>
        simp [qcDecisionNotesValid, hshort t ht]
  · intro hd
    constructor
    · rintro rfl
      rcases hd with rfl | rfl <;> simp [qcInspectionNotesValid, notesMissingOrShort]
    · rintro t rfl ht
      rcases hd with rfl | rfl <;>
        simp [qcInspectionNotesValid, hshort t ht]
  · intro hlen hstrip
    have hne : s ≠ "" := by
      intro he
      rw [he] at hlen
      simp [String.length] at hlen
    have hok : notesMissingOrShort (some s) = false := by
      simp only [notesMissingOrShort, Bool.or_eq_false_iff]
      constructor
      · simpa using hne
      · simp only [decide_eq_false_iff_not, not_lt]
        rw [hstrip, hlen]
    constructor
    · cases d <;> simp [qcDecisionNotesValid, hok]
    · cases di <;> simp [qcInspectionNotesValid, hok]
  · simp [qcDecisionNotesValid]
  · simp [qcInspectionNotesValid]
  · cases di <;> simp [qcDecisionNotesValid, qcInspectionNotesValid, decisionOfInspection]

/-- C9 witness: a HOLD decision without notes is rejected, and one with the
10-character whitespace-free notes `"a234567890"` is accepted, on both
validators. -/
theorem C9_qc_notes_requirement_witness :
    qcDecisionNotesValid Decision.HOLD none = false ∧
      qcDecisionNotesValid Decision.HOLD (some "a234567890") = true ∧
      qcInspectionNotesValid InspectionDecision.HOLD (some "a234567890") = true := by
  have h := C9_qc_notes_requirement Decision.HOLD InspectionDecision.HOLD none
    "a234567890"
  refine ⟨(h.1 (Or.inl rfl)).1 rfl, (h.2.2.1 (by decide) (by decide)).1,
    (h.2.2.1 (by decide) (by decide)).2⟩

/-- C3 counterexample: an inspection is already stored under idempotency
key 7, and replaying a creation with key 7 yields a 409 CONFLICT error
rather than the previously persisted inspection. -/
theorem C3_idempotency_counterexample :
    (storedInspections.find? (fun i => i.idempotency_key = 7)).isSome = true ∧
      createQCInspection storedInspections qcReqEx 9 7 42 =
        .error .duplicateKeyConflict := by
  exact ⟨rfl, rfl⟩

/-- C3 (amended).  Duplicate idempotency keys replay the stored result for
run creation and the four inventory operations (same body, no new rows);
QC inspection creation instead rejects a duplicate key as a conflict, as
does flow forking when a draft already exists. -/
theorem C3_idempotency :
    ∀ (runs : List Run) (fv : Option FlowVersion) (rc : String)
      (fvid key : Nat) (r0 : Run) (st : InvState) (rdata : ReceiveRequest)
      (tdata : TransferRequest) (cdata : ConsumeRequest) (uid now : Nat)
      (m : StockMove) (insps : List QCInspection) (qdata : QCInspectionCreate)
      (newId : Nat) (versions : List FlowVersionRow) (flow_id vnum : Nat)
      (src d : FlowVersionRow),
      (runs.find? (fun r => r.idempotency_key = key) = some r0 →
        createRunEndpoint runs fv rc fvid key = .ok (runs, r0)) ∧
      (0 < rdata.quantity_kg → findMoveByKey st key = some m →
        receiveToBuffer st rdata uid key now = .ok (st, m)) ∧
      (0 < tdata.quantity_kg → findMoveByKey st key = some m →
        transferBetweenBuffers st tdata uid key now = .ok (st, m)) ∧
      (0 < cdata.quantity_kg → findMoveByKey st key = some m →
        consumeFromBuffer st cdata uid key now = .ok (st, m)) ∧
      (0 < cdata.quantity_kg → findMoveByKey st key = some m →
        shipFromBuffer st cdata uid key now = .ok (st, m)) ∧
      ((insps.find? (fun i => i.idempotency_key = key)).isSome →
        createQCInspection insps qdata uid key newId =
          .error .duplicateKeyConflict) ∧
      (versions.find? (fun v =>
          v.flow_definition_id = flow_id ∧ v.version_num = vnum) = some src →
        versions.find? (fun v =>
          v.flow_definition_id = flow_id ∧
            v.status = FlowVersionStatus.DRAFT) = some d →
        forkFlowVersion versions flow_id vnum uid newId =
          .error (.draftAlreadyExists d.version_num)) := by
  intro runs fv rc fvid key r0 st rdata tdata cdata uid now m insps qdata
    newId versions flow_id vnum src d
  refine ⟨?_, ?_, ?_, ?_, ?_, ?_, ?_⟩
  · intro h
    simp [createRunEndpoint, h]
  · intro hq hm
    simp [receiveToBuffer, hm, not_le.mpr hq]
  · intro hq hm
    simp [transferBetweenBuffers, hm, not_le.mpr hq]
  · intro hq hm
    simp [consumeFromBuffer, consumeLike, hm, not_le.mpr hq]
  · intro hq hm
    simp [shipFromBuffer, consumeLike, hm, not_le.mpr hq]
  · intro h
    simp [createQCInspection, h]
  · intro hsrc hd
    unfold forkFlowVersion
    simp only [hsrc, hd]

/-- C3 witness: a run creation replayed under the stored key 1 returns the
stored run and appends nothing, and a receive replayed under the stored
key 100 returns the stored move and leaves the state unchanged. -/
theorem C3_idempotency_witness :
    createRunEndpoint [runIdle] (some fvPub) "R-1" 1 1 = .ok ([runIdle], runIdle) ∧
      receiveToBuffer invSt1 ⟨5, 1, 1, 50⟩ 9 100 3 = .ok (invSt1, move50) := by
  have h1 := C3_idempotency [runIdle] (some fvPub) "R-1" 1 1 runIdle invSt1
    ⟨5, 1, 1, 50⟩ ⟨5, 1, 2, 50⟩ ⟨5, 1, 50⟩ 9 3 move50 [] qcReqEx 42 [] 0 0
    ⟨0, 0, 0, FlowVersionStatus.DRAFT, ""⟩ ⟨0, 0, 0, FlowVersionStatus.DRAFT, ""⟩
  have h2 := C3_idempotency [runIdle] (some fvPub) "R-1" 1 100 runIdle invSt1
    ⟨5, 1, 1, 50⟩ ⟨5, 1, 2, 50⟩ ⟨5, 1, 50⟩ 9 3 move50 [] qcReqEx 42 [] 0 0
    ⟨0, 0, 0, FlowVersionStatus.DRAFT, ""⟩ ⟨0, 0, 0, FlowVersionStatus.DRAFT, ""⟩
  exact ⟨h1.1 (by decide), h2.2.1 (by decide) (by decide)⟩

/-- `find?` by id commutes with an id-preserving map. -/
theorem find?_map_idPreserving (g : Lot → Lot) (hg : ∀ x, (g x).id = x.id)
    (lid : Nat) (l : List Lot) :
    (l.map g).find? (fun x => x.id = lid) =
      Option.map g (l.find? (fun x => x.id = lid)) := by
  induction l with
  | nil => rfl
  | cons a t ih =>
      by_cases h : a.id = lid
      · rw [List.map_cons, List.find?_cons_of_pos _ (by simpa [hg a] using h),
          List.find?_cons_of_pos _ (by simpa using h)]
        rfl
      · rw [List.map_cons, List.find?_cons_of_neg _ (by simpa [hg a] using h),
          List.find?_cons_of_neg _ (by simpa using h), ih]

/-- `holdLotUpdate` never changes a row id. -/
theorem holdLotUpdate_id (lid : Nat) (x : Lot) : (holdLotUpdate lid x).id = x.id := by
  unfold holdLotUpdate
  split <;> rfl

/-- The trigger on a violating log with an attached lot. -/
theorem handleTempViolation_violating {log : TempLog} {lid : Nat}
    (st : TempState) (hv : log.is_violation = true)
    (hl : log.lot_id = some lid) :
    handleTempViolation log st =
      { st with
        lots := st.lots.map (holdLotUpdate lid)
        audit_events := st.audit_events ++
          [{ event_type := "TEMP_VIOLATION_HOLD", entity_type := "lot"
             entity_id := lid, user_id := log.recorded_by }] } := by
  unfold handleTempViolation
  rw [hl]
  simp [hv]

/-- The trigger on a non-violating log. -/
theorem handleTempViolation_clean {log : TempLog} (st : TempState)
    (hv : log.is_violation = false) : handleTempViolation log st = st := by
  unfold handleTempViolation
  simp [hv]

/-- The trigger on a log with no lot attached. -/
theorem handleTempViolation_noLot {log : TempLog} (st : TempState)
    (hl : log.lot_id = none) : handleTempViolation log st = st := by
  unfold handleTempViolation
  rw [hl]
  simp

/-- C4.  Temperature-violation side effect: `is_violation` is the strict
comparison against the per-type threshold (SURFACE 4 °C, CORE/AMBIENT
−18 °C); a violating insert with an attached lot in RELEASED, QUARANTINE
or CREATED moves that lot to HOLD and appends exactly one
TEMP_VIOLATION_HOLD audit event in the same transaction; a non-violating
insert changes no lot and appends no event; lots in other statuses keep
their status. -/
theorem C4_temperature_violation_side_effect :
    ∀ (st : TempState) (data : TemperatureLogCreate) (uid newId : Nat)
      (st' : TempState) (log : TempLog) (lid : Nat) (lo : Lot),
      createTemperatureLog st data uid newId = .ok (st', log) →
      ((data.measurement_type = MeasurementType.SURFACE →
          (log.is_violation = true ↔ 4 < data.temperature_c)) ∧
       (data.measurement_type = MeasurementType.CORE →
          (log.is_violation = true ↔ -18 < data.temperature_c)) ∧
       (data.measurement_type = MeasurementType.AMBIENT →
          (log.is_violation = true ↔ -18 < data.temperature_c)) ∧
       (log.is_violation = true → data.lot_id = some lid →
         st.lots.find? (fun x => x.id = lid) = some lo →
         tempHoldEligible lo.status = true →
         st'.lots.find? (fun x => x.id = lid) =
           some { lo with status := LotStatus.HOLD } ∧
         countTempHoldEvents st'.audit_events lid =
           countTempHoldEvents st.audit_events lid + 1) ∧
       (log.is_violation = false →
         st'.lots = st.lots ∧ st'.audit_events = st.audit_events) ∧
       (∀ x ∈ st.lots, tempHoldEligible x.status = false → x ∈ st'.lots) ∧
       st'.lots.length = st.lots.length) := by
  intro st data uid newId st' log lid lo h
  unfold createTemperatureLog at h
  split_ifs at h with hrange
  cases h
  refine ⟨?_, ?_, ?_, ?_, ?_, ?_, ?_⟩
  · intro hmt
    simp [checkViolation, TEMP_THRESHOLDS, hmt]
  · intro hmt
    simp [checkViolation, TEMP_THRESHOLDS, hmt]
  · intro hmt
    simp [checkViolation, TEMP_THRESHOLDS, hmt]
  · intro hv hlot hfind helig
    have hv' : checkViolation data.temperature_c data.measurement_type = true := hv
    have hlot' : data.lot_id = some lid := hlot
    rw [handleTempViolation_violating _ hv' hlot']
    have hid : lo.id = lid := by
      have := List.find?_some hfind
      simpa using this
    constructor
    · rw [show ({ st with temp_logs := st.temp_logs ++
          [{ id := newId, lot_id := data.lot_id, buffer_id := data.buffer_id
             inspection_id := data.inspection_id
             temperature_c := data.temperature_c
             measurement_type := data.measurement_type
             is_violation := checkViolation data.temperature_c data.measurement_type
             recorded_by := uid }] } : TempState).lots = st.lots from rfl]
      rw [find?_map_idPreserving (holdLotUpdate lid) (holdLotUpdate_id lid) lid]
      rw [hfind]
      unfold holdLotUpdate
      simp only [Option.map_some']
      rw [if_pos ⟨hid, helig⟩]
    · simp [countTempHoldEvents, List.filter_append]
  · intro hv
    have hv' : checkViolation data.temperature_c data.measurement_type = false := hv
    rw [handleTempViolation_clean _ hv']
    exact ⟨rfl, rfl⟩
  · intro x hx hnotelig
    by_cases hvc : checkViolation data.temperature_c data.measurement_type = true
    · cases hl : data.lot_id with
      | none => rw [handleTempViolation_noLot _ rfl]; exact hx
      | some l2 =>
          rw [handleTempViolation_violating _ hvc rfl]
          refine List.mem_map.mpr ⟨x, hx, ?_⟩
          unfold holdLotUpdate
          rw [if_neg]
          rintro ⟨-, he⟩
          rw [hnotelig] at he
          cases he
    · rw [handleTempViolation_clean _ (Bool.not_eq_true _ ▸ (by simpa using hvc))]
      exact hx
  · by_cases hvc : checkViolation data.temperature_c data.measurement_type = true
    · cases hl : data.lot_id with
      | none => rw [handleTempViolation_noLot _ rfl]
      | some l2 =>
          rw [handleTempViolation_violating _ hvc rfl]
          exact List.length_map _ _
    · rw [handleTempViolation_clean _ (by simpa using hvc)]

/-- C4 witness: inserting the 5.5 °C SURFACE reading against the RELEASED
lot 5 puts it on HOLD with exactly one TEMP_VIOLATION_HOLD event, while
the 3.5 °C reading leaves lots and audit trail untouched. -/
theorem C4_temperature_violation_side_effect_witness :
    (tempStHot.lots.find? (fun x => x.id = 5) =
      some { lotReleased with status := LotStatus.HOLD } ∧
      countTempHoldEvents tempStHot.audit_events 5 =
        countTempHoldEvents tempSt.audit_events 5 + 1) ∧
      (tempStCold.lots = tempSt.lots ∧
        tempStCold.audit_events = tempSt.audit_events) := by
  constructor
  · exact (C4_temperature_violation_side_effect tempSt hotReq 9 100 tempStHot
      logHot 5 lotReleased rfl).2.2.2.1 rfl rfl rfl rfl
  · exact (C4_temperature_violation_side_effect tempSt coldReq 9 100 tempStCold
      logCold 5 lotReleased rfl).2.2.2.2.1 rfl

/-! ### Inventory ledger lemmas -/

/-- `openQty` over a cons. -/
theorem openQty_cons (lot : Nat) (a : InvItem) (l : List InvItem) :
    openQty lot (a :: l) = openContrib lot a + openQty lot l := by
  simp [openQty]

/-- `openQty` over an appended row. -/
theorem openQty_append (lot : Nat) (l : List InvItem) (a : InvItem) :
    openQty lot (l ++ [a]) = openQty lot l + openContrib lot a := by
  simp [openQty]

/-- `moveTotal` over an appended move. -/
theorem moveTotal_append (lot : Nat) (mt : String) (l : List StockMove)
    (m : StockMove) :
    moveTotal lot mt (l ++ [m]) = moveTotal lot mt l + moveContrib lot mt m := by
  simp [moveTotal]

/-- Updating the single row with a given id shifts the open quantity by
that row's contribution delta. -/
theorem openQty_map_update (lot : Nat) (g : InvItem → InvItem)
    (e : InvItem) (hg : ∀ j, j.id ≠ e.id → g j = j) :
    ∀ items : List InvItem, e ∈ items →
      (items.map (fun i => i.id)).Nodup →
      openQty lot (items.map g) =
        openQty lot items - openContrib lot e + openContrib lot (g e) := by
  intro items
  induction items with
  | nil => intro he; cases he
  | cons a t ih =>
      intro he hnd
      simp only [List.map_cons, List.nodup_cons, List.mem_map] at hnd
      rcases List.mem_cons.mp he with rfl | hmem
      · have hids : ∀ j ∈ t, j.id ≠ e.id := by
          intro j hj hja
          exact hnd.1 ⟨j, hj, hja⟩
        have ht : t.map g = t := by
          have h2 : t.map g = t.map id :=
            List.map_congr_left (fun j hj => hg j (hids j hj))
          simpa using h2
        rw [List.map_cons, ht, openQty_cons, openQty_cons]
        ring
      · have hga : g a = a := by
          refine hg a ?_
          intro hae
          exact hnd.1 ⟨e, hmem, by rw [hae]⟩
        rw [List.map_cons, hga, openQty_cons, openQty_cons, ih hmem hnd.2]
        ring

/-- The row `receive` inserts. -/
def recvItem (st : InvState) (data : ReceiveRequest) (now : Nat) : InvItem :=
  ⟨st.nextId, data.lot_id, data.buffer_id, data.run_id, data.quantity_kg,
    now, none⟩

/-- The move `receive` records. -/
def recvMove (st : InvState) (data : ReceiveRequest) (uid key now : Nat) :
    StockMove :=
  ⟨st.nextId + 1, data.lot_id, none, some data.buffer_id, data.quantity_kg,
    "RECEIVE", uid, key, now⟩

/-- Inversion of a successful `receive`. -/
theorem receiveToBuffer_ok_inv {st : InvState} {data : ReceiveRequest}
    {uid key now : Nat} {st' : InvState} {m : StockMove}
    (h : receiveToBuffer st data uid key now = .ok (st', m)) :
    (findMoveByKey st key = some m ∧ st' = st) ∨
    (findMoveByKey st key = none ∧ 0 < data.quantity_kg ∧
      validateBufferLotType st data.buffer_id data.lot_id = .ok () ∧
      m = recvMove st data uid key now ∧
      st' = { st with
              items := st.items ++ [recvItem st data now]
              moves := st.moves ++ [recvMove st data uid key now]
              nextId := st.nextId + 2 }) := by
  unfold receiveToBuffer at h
  by_cases hq : data.quantity_kg ≤ 0
  · rw [if_pos hq] at h; cases h
  · rw [if_neg hq] at h
    cases hf : findMoveByKey st key with
    | some m0 =>
        simp only [hf] at h
        cases h
        exact Or.inl ⟨rfl, rfl⟩
    | none =>
        simp only [hf] at h
        cases hval : validateBufferLotType st data.buffer_id data.lot_id with
        | error e => simp only [hval] at h; cases h
        | ok u =>
            cases u
            simp only [hval] at h
            by_cases hrun : data.run_id ∉ st.run_ids
            · rw [if_pos hrun] at h; cases h
            · rw [if_neg hrun] at h
              cases h
              exact Or.inr ⟨rfl, not_le.mp hq, rfl, rfl, rfl⟩

/-- The row `transfer` inserts into the target buffer. -/
def transItem (st : InvState) (data : TransferRequest) (run_id now : Nat) :
    InvItem :=
  ⟨st.nextId, data.lot_id, data.to_buffer_id, run_id, data.quantity_kg,
    now, none⟩

/-- The move `transfer` records. -/
def transMove (st : InvState) (data : TransferRequest) (uid key now : Nat) :
    StockMove :=
  ⟨st.nextId + 1, data.lot_id, some data.from_buffer_id,
    some data.to_buffer_id, data.quantity_kg, "TRANSFER", uid, key, now⟩

/-- Inversion of a successful `transfer`. -/
theorem transferBetweenBuffers_ok_inv {st : InvState} {data : TransferRequest}
    {uid key now : Nat} {st' : InvState} {m : StockMove}
    (h : transferBetweenBuffers st data uid key now = .ok (st', m)) :
    (findMoveByKey st key = some m ∧ st' = st) ∨
    (findMoveByKey st key = none ∧ 0 < data.quantity_kg ∧
      validateBufferLotType st data.to_buffer_id data.lot_id = .ok () ∧
      ∃ i, activeItems st data.lot_id data.from_buffer_id = [i] ∧
        data.quantity_kg ≤ i.quantity_kg ∧
        m = transMove st data uid key now ∧
        st' = { st with
                items := drainItem st i data.quantity_kg now ++
                  [transItem st data i.run_id now]
                moves := st.moves ++ [transMove st data uid key now]
                nextId := st.nextId + 2 }) := by
  unfold transferBetweenBuffers at h
  by_cases hq : data.quantity_kg ≤ 0
  · rw [if_pos hq] at h; cases h
  · rw [if_neg hq] at h
    cases hf : findMoveByKey st key with
    | some m0 =>
        simp only [hf] at h
        cases h
        exact Or.inl ⟨rfl, rfl⟩
    | none =>
        simp only [hf] at h
        cases hval : validateBufferLotType st data.to_buffer_id data.lot_id with
        | error e => simp only [hval] at h; cases h
        | ok u =>
            cases u
            simp only [hval] at h
            unfold findSourceItem at h
            cases hA : activeItems st data.lot_id data.from_buffer_id with
            | nil => simp only [hA] at h; cases h
            | cons i tl =>
                cases tl with
                | nil =>
                    simp only [hA] at h
                    by_cases hlt : i.quantity_kg < data.quantity_kg
                    · rw [if_pos hlt] at h; cases h
                    · rw [if_neg hlt] at h
                      cases h
                      exact Or.inr ⟨rfl, not_le.mp hq, rfl, i, rfl,
                        not_lt.mp hlt, rfl, rfl⟩
                | cons j tl2 => simp only [hA] at h; cases h

/-- The move `consume`/`ship` records. -/
def consMove (mt : String) (st : InvState) (data : ConsumeRequest)
    (uid key now : Nat) : StockMove :=
  ⟨st.nextId, data.lot_id, some data.buffer_id, none, data.quantity_kg,
    mt, uid, key, now⟩

/-- Inversion of a successful `consume`/`ship`. -/
theorem consumeLike_ok_inv {mt : String} {st : InvState}
    {data : ConsumeRequest} {uid key now : Nat} {st' : InvState}
    {m : StockMove}
    (h : consumeLike mt st data uid key now = .ok (st', m)) :
    (findMoveByKey st key = some m ∧ st' = st) ∨
    (findMoveByKey st key = none ∧ 0 < data.quantity_kg ∧
      ∃ i, activeItems st data.lot_id data.buffer_id = [i] ∧
        data.quantity_kg ≤ i.quantity_kg ∧
        m = consMove mt st data uid key now ∧
        st' = { st with
                items := drainItem st i data.quantity_kg now
                moves := st.moves ++ [consMove mt st data uid key now]
                nextId := st.nextId + 1 }) := by
  unfold consumeLike at h
  by_cases hq : data.quantity_kg ≤ 0
  · rw [if_pos hq] at h; cases h
  · rw [if_neg hq] at h
    cases hf : findMoveByKey st key with
    | some m0 =>
        simp only [hf] at h
        cases h
        exact Or.inl ⟨rfl, rfl⟩
    | none =>
        simp only [hf] at h
        unfold findSourceItem at h
        cases hA : activeItems st data.lot_id data.buffer_id with
        | nil => simp only [hA] at h; cases h
        | cons i tl =>
            cases tl with
            | nil =>
                simp only [hA] at h
                by_cases hlt : i.quantity_kg < data.quantity_kg
                · rw [if_pos hlt] at h; cases h
                · rw [if_neg hlt] at h
                  cases h
                  exact Or.inr ⟨rfl, not_le.mp hq, i, rfl, not_lt.mp hlt,
                    rfl, rfl⟩
            | cons j tl2 => simp only [hA] at h; cases h

/-- The unique active row returned by the source lookup is a stored open
row of the requested lot and buffer. -/
theorem activeItems_singleton_mem {st : InvState} {lot buf : Nat}
    {i : InvItem} (h : activeItems st lot buf = [i]) :
    i ∈ st.items ∧ i.lot_id = lot ∧ i.buffer_id = buf ∧ i.exited_at = none := by
  have hi : i ∈ activeItems st lot buf := by rw [h]; exact List.mem_singleton.mpr rfl
  unfold activeItems at hi
  have h2 := List.mem_filter.mp hi
  refine ⟨h2.1, ?_, ?_, ?_⟩ <;>
    · have h3 := of_decide_eq_true h2.2
      tauto

/-- Draining a row touches no other id. -/
theorem drainItem_off {i : InvItem} {qty : ℚ} {now : Nat} :
    ∀ j : InvItem, j.id ≠ i.id →
      (if j.id = i.id then
        if i.quantity_kg = qty then { j with exited_at := some now }
        else { j with quantity_kg := j.quantity_kg - qty }
      else j) = j := by
  intro j hj
  rw [if_neg hj]

/-- The drained list is the map of the per-row update. -/
theorem drainItem_eq_map (st : InvState) (i : InvItem) (qty : ℚ) (now : Nat) :
    drainItem st i qty now = st.items.map (fun j =>
      if j.id = i.id then
        if i.quantity_kg = qty then { j with exited_at := some now }
        else { j with quantity_kg := j.quantity_kg - qty }
      else j) := rfl

/-- Draining preserves the id column. -/
theorem drainItem_ids (st : InvState) (i : InvItem) (qty : ℚ) (now : Nat) :
    (drainItem st i qty now).map (fun j => j.id) =
      st.items.map (fun j => j.id) := by
  rw [drainItem_eq_map, List.map_map]
  refine List.map_congr_left ?_
  intro j _
  simp only [Function.comp_apply]
  split
  · split <;> rfl
  · rfl

/-- A fresh id is not among the stored item ids. -/
theorem nextId_not_mem {st : InvState} (hwf : invWF st) :
    st.nextId ∉ st.items.map (fun i => i.id) := by
  intro hmem
  obtain ⟨i, hi, hid⟩ := List.mem_map.mp hmem
  have := hwf.2 i hi
  omega

/-- Well-formedness survives every observed inventory request. -/
theorem invWF_invOpOrKeep (st : InvState) (op : InvOp) (hwf : invWF st) :
    invWF (invOpOrKeep st op) := by
  have happend : ∀ (items : List InvItem) (a : InvItem) (n : Nat),
      (items.map (fun i => i.id)).Nodup → (∀ i ∈ items, i.id < n) →
      a.id = n →
      ((items ++ [a]).map (fun i => i.id)).Nodup ∧
        ∀ i ∈ items ++ [a], i.id < n + 2 := by
    intro items a n hnd hlt ha
    constructor
    · rw [List.map_append]
      rw [List.nodup_append]
      refine ⟨hnd, List.nodup_singleton _, ?_⟩
      intro x hx hx2
      simp only [List.map_cons, List.map_nil, List.mem_singleton] at hx2
      obtain ⟨i, hi, hid⟩ := List.mem_map.mp hx
      have := hlt i hi
      omega
    · intro i hi
      rcases List.mem_append.mp hi with h1 | h2
      · have := hlt i h1; omega
      · have h3 : i = a := by simpa using h2
        subst h3
        omega
  unfold invOpOrKeep
  cases happ : applyInvOp st op with
  | error e => exact hwf
  | ok p =>
      obtain ⟨st', m⟩ := p
      cases op with
      | receive data uid key now =>
          simp only [applyInvOp] at happ
          rcases receiveToBuffer_ok_inv happ with ⟨-, rfl⟩ | ⟨-, -, -, -, rfl⟩
          · exact hwf
          · exact happend st.items (recvItem st data now) st.nextId hwf.1
              hwf.2 rfl
      | transfer data uid key now =>
          simp only [applyInvOp] at happ
          rcases transferBetweenBuffers_ok_inv happ with ⟨-, rfl⟩ |
            ⟨-, -, -, i, hA, -, -, rfl⟩
          · exact hwf
          · have hd := drainItem_ids st i data.quantity_kg now
            have hnd : ((drainItem st i data.quantity_kg now).map
                (fun j => j.id)).Nodup := by rw [hd]; exact hwf.1
            have hlt : ∀ j ∈ drainItem st i data.quantity_kg now,
                j.id < st.nextId := by
              intro j hj
              have : j.id ∈ (drainItem st i data.quantity_kg now).map
                  (fun j => j.id) := List.mem_map.mpr ⟨j, hj, rfl⟩
              rw [hd] at this
              obtain ⟨j0, hj0, hji⟩ := List.mem_map.mp this
              have := hwf.2 j0 hj0
              omega
            exact happend _ (transItem st data i.run_id now) st.nextId hnd
              hlt rfl
      | consume data uid key now =>
          simp only [applyInvOp, consumeFromBuffer] at happ
          rcases consumeLike_ok_inv happ with ⟨-, rfl⟩ |
            ⟨-, -, i, hA, -, -, rfl⟩
          · exact hwf
          · refine ⟨?_, ?_⟩
            · rw [show ({ st with
                  items := drainItem st i data.quantity_kg now
                  moves := st.moves ++ [consMove "CONSUME" st data uid key now]
                  nextId := st.nextId + 1 } : InvState).items =
                  drainItem st i data.quantity_kg now from rfl]
              rw [drainItem_ids]
              exact hwf.1
            · intro j hj
              have : j.id ∈ (drainItem st i data.quantity_kg now).map
                  (fun j => j.id) := List.mem_map.mpr ⟨j, hj, rfl⟩
              rw [drainItem_ids] at this
              obtain ⟨j0, hj0, hji⟩ := List.mem_map.mp this
              have := hwf.2 j0 hj0
              show j.id < st.nextId + 1
              omega
      | ship data uid key now =>
          simp only [applyInvOp, shipFromBuffer] at happ
          rcases consumeLike_ok_inv happ with ⟨-, rfl⟩ |
            ⟨-, -, i, hA, -, -, rfl⟩
          · exact hwf
          · refine ⟨?_, ?_⟩
            · rw [show ({ st with
                  items := drainItem st i data.quantity_kg now
                  moves := st.moves ++ [consMove "SHIP" st data uid key now]
                  nextId := st.nextId + 1 } : InvState).items =
                  drainItem st i data.quantity_kg now from rfl]
              rw [drainItem_ids]
              exact hwf.1
            · intro j hj
              have : j.id ∈ (drainItem st i data.quantity_kg now).map
                  (fun j => j.id) := List.mem_map.mpr ⟨j, hj, rfl⟩
              rw [drainItem_ids] at this
              obtain ⟨j0, hj0, hji⟩ := List.mem_map.mp this
              have := hwf.2 j0 hj0
              show j.id < st.nextId + 1
              omega

/-- The open contribution of the drained source row. -/
theorem openContrib_drained (lot : Nat) (i : InvItem) (q : ℚ) (now : Nat)
    (hiopen : i.exited_at = none) :
    openContrib lot (if i.id = i.id then
        if i.quantity_kg = q then { i with exited_at := some now }
        else { i with quantity_kg := i.quantity_kg - q }
      else i) =
      if i.quantity_kg = q then 0
      else if i.lot_id = lot then i.quantity_kg - q else 0 := by
  rw [if_pos rfl]
  by_cases hfull : i.quantity_kg = q
  · rw [if_pos hfull, if_pos hfull]
    simp [openContrib]
  · rw [if_neg hfull, if_neg hfull]
    by_cases hl : i.lot_id = lot
    · rw [if_pos hl]
      simp [openContrib, hl, hiopen]
    · rw [if_neg hl]
      simp [openContrib, hl]

/-- The open contribution of an open row. -/
theorem openContrib_open (lot : Nat) (i : InvItem)
    (hiopen : i.exited_at = none) :
    openContrib lot i = if i.lot_id = lot then i.quantity_kg else 0 := by
  by_cases hl : i.lot_id = lot <;> simp [openContrib, hl, hiopen]

/-- A stock move of a different type contributes nothing to a total. -/
theorem moveContrib_other (lot : Nat) (mt : String) (m : StockMove)
    (hne : m.move_type ≠ mt) : moveContrib lot mt m = 0 := by
  simp only [moveContrib]
  rw [if_neg]
  rintro ⟨-, h2⟩
  exact hne h2

/-- A stock move of the matching type contributes its quantity iff the lot
matches. -/
theorem moveContrib_same (lot : Nat) (mt : String) (m : StockMove)
    (heq : m.move_type = mt) :
    moveContrib lot mt m = if m.lot_id = lot then m.quantity_kg else 0 := by
  by_cases hl : m.lot_id = lot <;> simp [moveContrib, hl, heq]

/-- Conservation survives a successful consume/ship. -/
theorem conserves_consumeLike {mt : String} {st : InvState}
    {data : ConsumeRequest} {uid key now : Nat} {st' : InvState}
    {m : StockMove} (lot : Nat) (hmt : mt = "CONSUME" ∨ mt = "SHIP")
    (h : consumeLike mt st data uid key now = .ok (st', m))
    (hwf : invWF st) (hc : conserves lot st) : conserves lot st' := by
  rcases consumeLike_ok_inv h with ⟨-, rfl⟩ | ⟨-, hq, i, hA, hle, -, rfl⟩
  · exact hc
  · obtain ⟨hmem, hilot, hibuf, hiopen⟩ := activeItems_singleton_mem hA
    unfold conserves at hc ⊢
    show openQty lot (drainItem st i data.quantity_kg now) =
      moveTotal lot "RECEIVE" (st.moves ++ [consMove mt st data uid key now]) -
        (moveTotal lot "CONSUME"
            (st.moves ++ [consMove mt st data uid key now]) +
          moveTotal lot "SHIP"
            (st.moves ++ [consMove mt st data uid key now]))
    rw [moveTotal_append, moveTotal_append, moveTotal_append,
      drainItem_eq_map,
      openQty_map_update lot _ i drainItem_off st.items hmem hwf.1,
      openContrib_drained lot i data.quantity_kg now hiopen,
      openContrib_open lot i hiopen,
      moveContrib_other lot "RECEIVE" (consMove mt st data uid key now)
        (by
          rcases hmt with rfl | rfl
          · exact (show ("CONSUME" : String) ≠ "RECEIVE" by decide)
          · exact (show ("SHIP" : String) ≠ "RECEIVE" by decide))]
    have hmc : moveContrib lot "CONSUME" (consMove mt st data uid key now) +
        moveContrib lot "SHIP" (consMove mt st data uid key now) =
        if data.lot_id = lot then data.quantity_kg else 0 := by
      rcases hmt with rfl | rfl
      · rw [moveContrib_same lot "CONSUME" _ rfl,
          moveContrib_other lot "SHIP" _
            (show ("CONSUME" : String) ≠ "SHIP" by decide)]
        simp [consMove]
      · rw [moveContrib_other lot "CONSUME" _
            (show ("SHIP" : String) ≠ "CONSUME" by decide),
          moveContrib_same lot "SHIP" _ rfl]
        simp [consMove]
    rw [hilot]
    by_cases hl : data.lot_id = lot
    · rw [if_pos hl] at hmc
      by_cases hfull : i.quantity_kg = data.quantity_kg
      · rw [if_pos hl, if_pos hfull]
        linarith [hc, hmc, hfull]
      · rw [if_pos hl, if_neg hfull, if_pos hl]
        linarith [hc, hmc]
    · rw [if_neg hl] at hmc
      by_cases hfull : i.quantity_kg = data.quantity_kg
      · rw [if_neg hl, if_pos hfull]
        linarith [hc, hmc]
      · rw [if_neg hl, if_neg hfull, if_neg hl]
        linarith [hc, hmc]

/-- Conservation survives every observed inventory request. -/
theorem conserves_invOpOrKeep (st : InvState) (op : InvOp) (lot : Nat)
    (hwf : invWF st) (hc : conserves lot st) :
    conserves lot (invOpOrKeep st op) := by
  unfold invOpOrKeep
  cases happ : applyInvOp st op with
  | error e => exact hc
  | ok p =>
      obtain ⟨st', m⟩ := p
      cases op with
      | receive data uid key now =>
          simp only [applyInvOp] at happ
          rcases receiveToBuffer_ok_inv happ with ⟨-, rfl⟩ | ⟨-, hq, -, -, rfl⟩
          · exact hc
          · unfold conserves at hc ⊢
            show openQty lot (st.items ++ [recvItem st data now]) =
              moveTotal lot "RECEIVE"
                  (st.moves ++ [recvMove st data uid key now]) -
                (moveTotal lot "CONSUME"
                    (st.moves ++ [recvMove st data uid key now]) +
                  moveTotal lot "SHIP"
                    (st.moves ++ [recvMove st data uid key now]))
            rw [openQty_append, moveTotal_append, moveTotal_append,
              moveTotal_append,
              moveContrib_other lot "CONSUME" _
                (show ("RECEIVE" : String) ≠ "CONSUME" by decide),
              moveContrib_other lot "SHIP" _
                (show ("RECEIVE" : String) ≠ "SHIP" by decide),
              moveContrib_same lot "RECEIVE" _ rfl,
              openContrib_open lot _ rfl]
            show openQty lot st.items +
                (if data.lot_id = lot then data.quantity_kg else 0) =
              moveTotal lot "RECEIVE" st.moves +
                  (if data.lot_id = lot then data.quantity_kg else 0) -
                (moveTotal lot "CONSUME" st.moves + 0 +
                  (moveTotal lot "SHIP" st.moves + 0))
            by_cases hl : data.lot_id = lot
            · rw [if_pos hl]
              linarith [hc]
            · rw [if_neg hl]
              linarith [hc]
      | transfer data uid key now =>
          simp only [applyInvOp] at happ
          rcases transferBetweenBuffers_ok_inv happ with ⟨-, rfl⟩ |
            ⟨-, hq, -, i, hA, hle, -, rfl⟩
          · exact hc
          · obtain ⟨hmem, hilot, hibuf, hiopen⟩ := activeItems_singleton_mem hA
            unfold conserves at hc ⊢
            show openQty lot (drainItem st i data.quantity_kg now ++
                [transItem st data i.run_id now]) =
              moveTotal lot "RECEIVE"
                  (st.moves ++ [transMove st data uid key now]) -
                (moveTotal lot "CONSUME"
                    (st.moves ++ [transMove st data uid key now]) +
                  moveTotal lot "SHIP"
                    (st.moves ++ [transMove st data uid key now]))
            rw [openQty_append, moveTotal_append, moveTotal_append,
              moveTotal_append,
              moveContrib_other lot "CONSUME" _
                (show ("TRANSFER" : String) ≠ "CONSUME" by decide),
              moveContrib_other lot "SHIP" _
                (show ("TRANSFER" : String) ≠ "SHIP" by decide),
              moveContrib_other lot "RECEIVE" _
                (show ("TRANSFER" : String) ≠ "RECEIVE" by decide),
              drainItem_eq_map,
              openQty_map_update lot _ i drainItem_off st.items hmem hwf.1,
              openContrib_drained lot i data.quantity_kg now hiopen,
              openContrib_open lot i hiopen,
              openContrib_open lot _ rfl]
            show _ = moveTotal lot "RECEIVE" st.moves + 0 -
              (moveTotal lot "CONSUME" st.moves + 0 +
                (moveTotal lot "SHIP" st.moves + 0))
            rw [hilot]
            show openQty lot st.items -
                (if data.lot_id = lot then i.quantity_kg else 0) +
                (if i.quantity_kg = data.quantity_kg then 0
                  else if data.lot_id = lot then
                    i.quantity_kg - data.quantity_kg else 0) +
                (if data.lot_id = lot then data.quantity_kg else 0) = _
            by_cases hl : data.lot_id = lot
            · by_cases hfull : i.quantity_kg = data.quantity_kg
              · rw [if_pos hl, if_pos hfull, if_pos hl]
                linarith [hc, hfull]
              · rw [if_pos hl, if_neg hfull, if_pos hl, if_pos hl]
                linarith [hc]
            · by_cases hfull : i.quantity_kg = data.quantity_kg
              · rw [if_neg hl, if_pos hfull, if_neg hl]
                linarith [hc]
              · rw [if_neg hl, if_neg hfull, if_neg hl, if_neg hl]
                linarith [hc]
      | consume data uid key now =>
          simp only [applyInvOp, consumeFromBuffer] at happ
          exact conserves_consumeLike lot (Or.inl rfl) happ hwf hc
      | ship data uid key now =>
          simp only [applyInvOp, shipFromBuffer] at happ
          exact conserves_consumeLike lot (Or.inr rfl) happ hwf hc

/-- A successful fresh transfer moves exactly the requested quantity from
the source row into the created target row. -/
theorem C5_transfer_core {st : InvState} {data : TransferRequest}
    {uid key now : Nat} {st' : InvState} {m : StockMove}
    (h : transferBetweenBuffers st data uid key now = .ok (st', m))
    (hf : findMoveByKey st key = none) (hwf : invWF st) :
    m.quantity_kg = data.quantity_kg ∧
    ∃ i, activeItems st data.lot_id data.from_buffer_id = [i] ∧
      openQty data.lot_id (drainItem st i data.quantity_kg now) =
        openQty data.lot_id st.items - data.quantity_kg ∧
      transItem st data i.run_id now ∈ st'.items ∧
      (transItem st data i.run_id now).quantity_kg = data.quantity_kg ∧
      openQty data.lot_id st'.items = openQty data.lot_id st.items := by
  rcases transferBetweenBuffers_ok_inv h with ⟨hsome, -⟩ |
    ⟨-, hq, hval, i, hA, hle, hm, rfl⟩
  · rw [hf] at hsome
    cases hsome
  · obtain ⟨hmem, hilot, hibuf, hiopen⟩ := activeItems_singleton_mem hA
    have hdrain : openQty data.lot_id (drainItem st i data.quantity_kg now) =
        openQty data.lot_id st.items - data.quantity_kg := by
      rw [drainItem_eq_map,
        openQty_map_update data.lot_id _ i drainItem_off st.items hmem hwf.1,
        openContrib_drained data.lot_id i data.quantity_kg now hiopen,
        openContrib_open data.lot_id i hiopen, hilot, if_pos rfl]
      by_cases hfull : i.quantity_kg = data.quantity_kg
      · rw [if_pos hfull]
        linarith [hfull]
      · rw [if_neg hfull, if_pos rfl]
        ring
    refine ⟨by subst hm; rfl, i, hA, hdrain, ?_, rfl, ?_⟩
    · exact List.mem_append.mpr (Or.inr (List.mem_singleton.mpr rfl))
    · show openQty data.lot_id (drainItem st i data.quantity_kg now ++
        [transItem st data i.run_id now]) = openQty data.lot_id st.items
      rw [openQty_append, hdrain, openContrib_open _ _ rfl,
        if_pos (show (transItem st data i.run_id now).lot_id = data.lot_id
          from rfl)]
      show openQty data.lot_id st.items - data.quantity_kg +
        data.quantity_kg = openQty data.lot_id st.items
      ring

/-- C5.  Quantity conservation: starting from any well-formed state in
which a lot's open quantity equals its received-minus-consumed/shipped
total (in particular an empty ledger), every sequence of observed
receive/transfer/consume/ship requests preserves that equation for every
lot; moreover a successful transfer removes from the source row exactly
the quantity of the row it creates in the target buffer, leaving the
lot's open quantity unchanged. -/
theorem C5_quantity_conservation :
    ∀ (ops : List InvOp) (st : InvState) (lot : Nat),
      invWF st → conserves lot st →
      conserves lot (ops.foldl invOpOrKeep st) ∧
      (∀ (data : TransferRequest) (uid key now : Nat) (st' : InvState)
        (m : StockMove),
        transferBetweenBuffers st data uid key now = .ok (st', m) →
        findMoveByKey st key = none →
        m.quantity_kg = data.quantity_kg ∧
        ∃ i, activeItems st data.lot_id data.from_buffer_id = [i] ∧
          openQty data.lot_id (drainItem st i data.quantity_kg now) =
            openQty data.lot_id st.items - data.quantity_kg ∧
          transItem st data i.run_id now ∈ st'.items ∧
          (transItem st data i.run_id now).quantity_kg = data.quantity_kg ∧
          openQty data.lot_id st'.items = openQty data.lot_id st.items) := by
  intro ops
  induction ops with
  | nil =>
      intro st lot hwf hc
      refine ⟨hc, ?_⟩
      exact fun data uid key now st' m h hf =>
        C5_transfer_core h hf hwf
  | cons op ops ih =>
      intro st lot hwf hc
      refine ⟨?_, ?_⟩
      · exact (ih (invOpOrKeep st op) lot (invWF_invOpOrKeep st op hwf)
          (conserves_invOpOrKeep st op lot hwf hc)).1
      · exact fun data uid key now st' m h hf =>
          C5_transfer_core h hf hwf

/-- C5 witness: from the empty ledger, receiving 50 kg of lot 5 into
buffer 1 and consuming 20 kg of it preserves quantity conservation for
lot 5. -/
theorem C5_quantity_conservation_witness :
    conserves 5 ([InvOp.receive ⟨5, 1, 1, 50⟩ 9 100 0,
      InvOp.consume ⟨5, 1, 20⟩ 9 101 1].foldl invOpOrKeep invSt0) := by
  refine (C5_quantity_conservation
    [InvOp.receive ⟨5, 1, 1, 50⟩ 9 100 0, InvOp.consume ⟨5, 1, 20⟩ 9 101 1]
    invSt0 5 ?_ ?_).1
  · constructor
    · simp [invSt0]
    · intro i hi
      simp [invSt0] at hi
  · simp [conserves, invSt0, openQty, moveTotal]

/-- Rows with equal ids in a well-formed item list are the same row. -/
theorem eq_of_id_eq : ∀ {items : List InvItem},
    (items.map (fun i => i.id)).Nodup →
    ∀ {i j : InvItem}, i ∈ items → j ∈ items → j.id = i.id → j = i := by
  intro items
  induction items with
  | nil => intro _ i j hi; cases hi
  | cons a t ih =>
      intro hnd i j hi hj hij
      simp only [List.map_cons, List.nodup_cons, List.mem_map] at hnd
      rcases List.mem_cons.mp hi with rfl | hit
      · rcases List.mem_cons.mp hj with rfl | hjt
        · rfl
        · exact absurd ⟨j, hjt, hij⟩ hnd.1
      · rcases List.mem_cons.mp hj with rfl | hjt
        · exact absurd ⟨i, hit, hij.symm⟩ hnd.1
        · exact ih hnd.2 hit hjt hij

/-- Draining never produces a zero-quantity open row. -/
theorem drain_pos {st : InvState} {i : InvItem} {q : ℚ} {now : Nat}
    (hwf : invWF st) (hmem : i ∈ st.items) (hle : q ≤ i.quantity_kg)
    (hpos : ∀ j ∈ st.items, j.exited_at = none → 0 < j.quantity_kg) :
    ∀ j ∈ drainItem st i q now, j.exited_at = none → 0 < j.quantity_kg := by
  intro j hj hopen
  rw [drainItem_eq_map] at hj
  obtain ⟨j0, hj0, rfl⟩ := List.mem_map.mp hj
  by_cases hid : j0.id = i.id
  · have hji : j0 = i := eq_of_id_eq hwf.1 hmem hj0 hid
    rw [if_pos hid] at hopen ⊢
    by_cases hfull : i.quantity_kg = q
    · rw [if_pos hfull] at hopen
      simp at hopen
    · rw [if_neg hfull] at hopen ⊢
      rw [hji]
      have : q < i.quantity_kg := lt_of_le_of_ne hle
        (fun he => hfull he.symm)
      show 0 < i.quantity_kg - q
      linarith
  · rw [if_neg hid] at hopen ⊢
    exact hpos j0 hj0 hopen

/-- C6.  Partial-move semantics: transfer/consume/ship are rejected with
the specific error when the source row is missing or short, a rejected
call leaves the ledger unchanged, a strict-partial move decrements the
still-open source row, an exact move closes it, no successful request
leaves a zero-quantity open row, and every successful request appends
exactly one stock move. -/
theorem C6_partial_move_semantics :
    ∀ (st : InvState) (tdata : TransferRequest) (cdata : ConsumeRequest)
      (uid key now : Nat) (st' : InvState) (m : StockMove),
      (findMoveByKey st key = none →
        validateBufferLotType st tdata.to_buffer_id tdata.lot_id = .ok () →
        0 < tdata.quantity_kg →
        activeItems st tdata.lot_id tdata.from_buffer_id = [] →
        transferBetweenBuffers st tdata uid key now =
          .error .lotNotInSourceBuffer) ∧
      (findMoveByKey st key = none → 0 < cdata.quantity_kg →
        activeItems st cdata.lot_id cdata.buffer_id = [] →
        consumeFromBuffer st cdata uid key now =
            .error .lotNotInSourceBuffer ∧
          shipFromBuffer st cdata uid key now =
            .error .lotNotInSourceBuffer) ∧
      (∀ i, findMoveByKey st key = none →
        validateBufferLotType st tdata.to_buffer_id tdata.lot_id = .ok () →
        0 < tdata.quantity_kg →
        activeItems st tdata.lot_id tdata.from_buffer_id = [i] →
        i.quantity_kg < tdata.quantity_kg →
        transferBetweenBuffers st tdata uid key now =
          .error (.insufficientQuantity i.quantity_kg)) ∧
      (∀ i, findMoveByKey st key = none → 0 < cdata.quantity_kg →
        activeItems st cdata.lot_id cdata.buffer_id = [i] →
        i.quantity_kg < cdata.quantity_kg →
        consumeFromBuffer st cdata uid key now =
            .error (.insufficientQuantity i.quantity_kg) ∧
          shipFromBuffer st cdata uid key now =
            .error (.insufficientQuantity i.quantity_kg)) ∧
      (∀ op e, applyInvOp st op = .error e → invOpOrKeep st op = st) ∧
      (transferBetweenBuffers st tdata uid key now = .ok (st', m) →
        findMoveByKey st key = none →
        ∃ i, activeItems st tdata.lot_id tdata.from_buffer_id = [i] ∧
          (tdata.quantity_kg < i.quantity_kg →
            ({ i with quantity_kg := i.quantity_kg - tdata.quantity_kg } :
              InvItem) ∈ st'.items) ∧
          (i.quantity_kg = tdata.quantity_kg →
            ({ i with exited_at := some now } : InvItem) ∈ st'.items) ∧
          st'.moves = st.moves ++ [m]) ∧
      (∀ mt, mt = "CONSUME" ∨ mt = "SHIP" →
        consumeLike mt st cdata uid key now = .ok (st', m) →
        findMoveByKey st key = none →
        ∃ i, activeItems st cdata.lot_id cdata.buffer_id = [i] ∧
          (cdata.quantity_kg < i.quantity_kg →
            ({ i with quantity_kg := i.quantity_kg - cdata.quantity_kg } :
              InvItem) ∈ st'.items) ∧
          (i.quantity_kg = cdata.quantity_kg →
            ({ i with exited_at := some now } : InvItem) ∈ st'.items) ∧
          st'.moves = st.moves ++ [m]) ∧
      (∀ op st2 m2, invWF st → applyInvOp st op = .ok (st2, m2) →
        (∀ j ∈ st.items, j.exited_at = none → 0 < j.quantity_kg) →
        (∀ j ∈ st2.items, j.exited_at = none → 0 < j.quantity_kg)) := by
  intro st tdata cdata uid key now st' m
  have hconsErr : ∀ (mt : String),
      findMoveByKey st key = none → 0 < cdata.quantity_kg →
      activeItems st cdata.lot_id cdata.buffer_id = [] →
      consumeLike mt st cdata uid key now = .error .lotNotInSourceBuffer := by
    intro mt hf hq hA
    unfold consumeLike
    rw [if_neg (not_le.mpr hq)]
    simp only [hf]
    unfold findSourceItem
    simp only [hA]
  have hconsShort : ∀ (mt : String) i,
      findMoveByKey st key = none → 0 < cdata.quantity_kg →
      activeItems st cdata.lot_id cdata.buffer_id = [i] →
      i.quantity_kg < cdata.quantity_kg →
      consumeLike mt st cdata uid key now =
        .error (.insufficientQuantity i.quantity_kg) := by
    intro mt i hf hq hA hlt
    unfold consumeLike
    rw [if_neg (not_le.mpr hq)]
    simp only [hf]
    unfold findSourceItem
    simp only [hA]
    rw [if_pos hlt]
  refine ⟨?_, ?_, ?_, ?_, ?_, ?_, ?_, ?_⟩
  · intro hf hval hq hA
    unfold transferBetweenBuffers
    rw [if_neg (not_le.mpr hq)]
    simp only [hf, hval]
    unfold findSourceItem
    simp only [hA]
  · intro hf hq hA
    exact ⟨hconsErr "CONSUME" hf hq hA, hconsErr "SHIP" hf hq hA⟩
  · intro i hf hval hq hA hlt
    unfold transferBetweenBuffers
    rw [if_neg (not_le.mpr hq)]
    simp only [hf, hval]
    unfold findSourceItem
    simp only [hA]
    rw [if_pos hlt]
  · intro i hf hq hA hlt
    exact ⟨hconsShort "CONSUME" i hf hq hA hlt,
      hconsShort "SHIP" i hf hq hA hlt⟩
  · intro op e he
    simp [invOpOrKeep, he]
  · intro h hf
    rcases transferBetweenBuffers_ok_inv h with ⟨hsome, -⟩ |
      ⟨-, hq, hval, i, hA, hle, hm, rfl⟩
    · rw [hf] at hsome
      cases hsome
    · obtain ⟨hmem, hilot, hibuf, hiopen⟩ := activeItems_singleton_mem hA
      refine ⟨i, hA, ?_, ?_, ?_⟩
      · intro hlt
        have hg : ({ i with
            quantity_kg := i.quantity_kg - tdata.quantity_kg } : InvItem) ∈
            drainItem st i tdata.quantity_kg now := by
          rw [drainItem_eq_map]
          refine List.mem_map.mpr ⟨i, hmem, ?_⟩
          rw [if_pos rfl, if_neg (fun he => absurd he (ne_of_gt hlt))]
        exact List.mem_append.mpr (Or.inl hg)
      · intro hfull
        have hg : ({ i with exited_at := some now } : InvItem) ∈
            drainItem st i tdata.quantity_kg now := by
          rw [drainItem_eq_map]
          refine List.mem_map.mpr ⟨i, hmem, ?_⟩
          rw [if_pos rfl, if_pos hfull]
        exact List.mem_append.mpr (Or.inl hg)
      · rw [hm]
  · intro mt hmt h hf
    rcases consumeLike_ok_inv h with ⟨hsome, -⟩ |
      ⟨-, hq, i, hA, hle, hm, rfl⟩
    · rw [hf] at hsome
      cases hsome
    · obtain ⟨hmem, hilot, hibuf, hiopen⟩ := activeItems_singleton_mem hA
      refine ⟨i, hA, ?_, ?_, ?_⟩
      · intro hlt
        show _ ∈ drainItem st i cdata.quantity_kg now
        rw [drainItem_eq_map]
        refine List.mem_map.mpr ⟨i, hmem, ?_⟩
        rw [if_pos rfl, if_neg (fun he => absurd he (ne_of_gt hlt))]
      · intro hfull
        show _ ∈ drainItem st i cdata.quantity_kg now
        rw [drainItem_eq_map]
        refine List.mem_map.mpr ⟨i, hmem, ?_⟩
        rw [if_pos rfl, if_pos hfull]
      · rw [hm]
  · intro op st2 m2 hwf happ hpos
    cases op with
    | receive data uid2 key2 now2 =>
        simp only [applyInvOp] at happ
        rcases receiveToBuffer_ok_inv happ with ⟨-, rfl⟩ | ⟨-, hq, -, -, rfl⟩
        · exact hpos
        · intro j hj hopen
          rcases List.mem_append.mp hj with h1 | h2
          · exact hpos j h1 hopen
          · have : j = recvItem st data now2 := by simpa using h2
            rw [this]
            exact hq
    | transfer data uid2 key2 now2 =>
        simp only [applyInvOp] at happ
        rcases transferBetweenBuffers_ok_inv happ with ⟨-, rfl⟩ |
          ⟨-, hq, -, i, hA, hle, -, rfl⟩
        · exact hpos
        · obtain ⟨hmem, -, -, -⟩ := activeItems_singleton_mem hA
          intro j hj hopen
          rcases List.mem_append.mp hj with h1 | h2
          · exact drain_pos hwf hmem hle hpos j h1 hopen
          · have : j = transItem st data i.run_id now2 := by simpa using h2
            rw [this]
            exact hq
    | consume data uid2 key2 now2 =>
        simp only [applyInvOp, consumeFromBuffer] at happ
        rcases consumeLike_ok_inv happ with ⟨-, rfl⟩ |
          ⟨-, hq, i, hA, hle, -, rfl⟩
        · exact hpos
        · obtain ⟨hmem, -, -, -⟩ := activeItems_singleton_mem hA
          exact drain_pos hwf hmem hle hpos
    | ship data uid2 key2 now2 =>
        simp only [applyInvOp, shipFromBuffer] at happ
        rcases consumeLike_ok_inv happ with ⟨-, rfl⟩ |
          ⟨-, hq, i, hA, hle, -, rfl⟩
        · exact hpos
        · obtain ⟨hmem, -, -, -⟩ := activeItems_singleton_mem hA
          exact drain_pos hwf hmem hle hpos

/-- C6 witness: with 50 kg of lot 5 open in buffer 1, consuming or
shipping 60 kg is rejected as insufficient, naming the available 50 kg. -/
theorem C6_partial_move_semantics_witness :
    consumeFromBuffer invSt1 ⟨5, 1, 60⟩ 9 101 1 =
        .error (.insufficientQuantity item50.quantity_kg) ∧
      shipFromBuffer invSt1 ⟨5, 1, 60⟩ 9 101 1 =
        .error (.insufficientQuantity item50.quantity_kg) :=
  (C6_partial_move_semantics invSt1 ⟨5, 1, 1, 20⟩ ⟨5, 1, 60⟩ 9 101 1
    invSt1 move50).2.2.2.1 item50 rfl (by decide) rfl (by decide)

/-- Inversion of a passing buffer/lot-type validation. -/
theorem validateBufferLotType_ok_inv {st : InvState} {buffer_id lot_id : Nat}
    (h : validateBufferLotType st buffer_id lot_id = .ok ()) :
    ∃ b, st.buffers.find? (fun x => x.id = buffer_id) = some b ∧
      b.is_active = true ∧
      ∃ lo, st.lots.find? (fun x => x.id = lot_id) = some lo ∧
        ∀ t, lo.lot_type = some t → t ∈ b.allowed_lot_types := by
  unfold validateBufferLotType at h
  cases hb : st.buffers.find? (fun x => x.id = buffer_id) with
  | none => simp only [hb] at h; cases h
  | some b =>
      simp only [hb] at h
      by_cases hact : b.is_active = false
      · rw [if_pos hact] at h; cases h
      · rw [if_neg hact] at h
        cases hlo : st.lots.find? (fun x => x.id = lot_id) with
        | none => simp only [hlo] at h; cases h
        | some lo =>
            simp only [hlo] at h
            refine ⟨b, rfl, by simpa using hact, lo, rfl, ?_⟩
            intro t ht
            simp only [ht] at h
            by_cases hmem : t ∉ b.allowed_lot_types
            · rw [if_pos hmem] at h; cases h
            · exact not_not.mp hmem

/-- C7.  Buffer purity: receive and transfer are rejected with the
specific failing rule when the target buffer is missing, inactive, or
does not allow the lot's type; consequently the row a successful receive
or transfer creates sits in a buffer whose `allowed_lot_types` contains
the lot's type. -/
theorem C7_buffer_purity :
    ∀ (st : InvState) (rdata : ReceiveRequest) (tdata : TransferRequest)
      (uid key now : Nat) (st' : InvState) (m : StockMove) (b : Buffer)
      (lo : Lot) (t : String),
      (findMoveByKey st key = none → 0 < rdata.quantity_kg →
        st.buffers.find? (fun x => x.id = rdata.buffer_id) = none →
        receiveToBuffer st rdata uid key now = .error .bufferNotFound) ∧
      (findMoveByKey st key = none → 0 < rdata.quantity_kg →
        st.buffers.find? (fun x => x.id = rdata.buffer_id) = some b →
        b.is_active = false →
        receiveToBuffer st rdata uid key now = .error .bufferInactive) ∧
      (findMoveByKey st key = none → 0 < rdata.quantity_kg →
        st.buffers.find? (fun x => x.id = rdata.buffer_id) = some b →
        b.is_active = true →
        st.lots.find? (fun x => x.id = rdata.lot_id) = some lo →
        lo.lot_type = some t → t ∉ b.allowed_lot_types →
        receiveToBuffer st rdata uid key now =
          .error (.lotTypeNotAllowed t b.allowed_lot_types)) ∧
      (findMoveByKey st key = none → 0 < tdata.quantity_kg →
        st.buffers.find? (fun x => x.id = tdata.to_buffer_id) = none →
        transferBetweenBuffers st tdata uid key now =
          .error .bufferNotFound) ∧
      (findMoveByKey st key = none → 0 < tdata.quantity_kg →
        st.buffers.find? (fun x => x.id = tdata.to_buffer_id) = some b →
        b.is_active = false →
        transferBetweenBuffers st tdata uid key now =
          .error .bufferInactive) ∧
      (findMoveByKey st key = none → 0 < tdata.quantity_kg →
        st.buffers.find? (fun x => x.id = tdata.to_buffer_id) = some b →
        b.is_active = true →
        st.lots.find? (fun x => x.id = tdata.lot_id) = some lo →
        lo.lot_type = some t → t ∉ b.allowed_lot_types →
        transferBetweenBuffers st tdata uid key now =
          .error (.lotTypeNotAllowed t b.allowed_lot_types)) ∧
      (receiveToBuffer st rdata uid key now = .ok (st', m) →
        findMoveByKey st key = none →
        st.lots.find? (fun x => x.id = rdata.lot_id) = some lo →
        lo.lot_type = some t →
        ∀ j ∈ st'.items, j ∉ st.items →
          j.buffer_id = rdata.buffer_id ∧
          ∃ b2, st.buffers.find? (fun x => x.id = rdata.buffer_id) = some b2 ∧
            b2.is_active = true ∧ t ∈ b2.allowed_lot_types) ∧
      (transferBetweenBuffers st tdata uid key now = .ok (st', m) →
        findMoveByKey st key = none →
        st.lots.find? (fun x => x.id = tdata.lot_id) = some lo →
        lo.lot_type = some t →
        ∃ i, activeItems st tdata.lot_id tdata.from_buffer_id = [i] ∧
          transItem st tdata i.run_id now ∈ st'.items ∧
          (transItem st tdata i.run_id now).buffer_id = tdata.to_buffer_id ∧
          ∃ b2, st.buffers.find?
              (fun x => x.id = tdata.to_buffer_id) = some b2 ∧
            b2.is_active = true ∧ t ∈ b2.allowed_lot_types) := by
  intro st rdata tdata uid key now st' m b lo t
  refine ⟨?_, ?_, ?_, ?_, ?_, ?_, ?_, ?_⟩
  · intro hf hq hb
    unfold receiveToBuffer
    rw [if_neg (not_le.mpr hq)]
    simp only [hf]
    unfold validateBufferLotType
    simp only [hb]
  · intro hf hq hb hact
    unfold receiveToBuffer
    rw [if_neg (not_le.mpr hq)]
    simp only [hf]
    unfold validateBufferLotType
    simp only [hb]
    rw [if_pos hact]
  · intro hf hq hb hact hlo ht hmem
    unfold receiveToBuffer
    rw [if_neg (not_le.mpr hq)]
    simp only [hf]
    unfold validateBufferLotType
    simp only [hb, hlo, ht]
    rw [if_neg (by rw [hact]; simp), if_pos hmem]
  · intro hf hq hb
    unfold transferBetweenBuffers
    rw [if_neg (not_le.mpr hq)]
    simp only [hf]
    unfold validateBufferLotType
    simp only [hb]
  · intro hf hq hb hact
    unfold transferBetweenBuffers
    rw [if_neg (not_le.mpr hq)]
    simp only [hf]
    unfold validateBufferLotType
    simp only [hb]
    rw [if_pos hact]
  · intro hf hq hb hact hlo ht hmem
    unfold transferBetweenBuffers
    rw [if_neg (not_le.mpr hq)]
    simp only [hf]
    unfold validateBufferLotType
    simp only [hb, hlo, ht]
    rw [if_neg (by rw [hact]; simp), if_pos hmem]
  · intro h hf hlo ht
    rcases receiveToBuffer_ok_inv h with ⟨hsome, -⟩ | ⟨-, hq, hval, -, rfl⟩
    · rw [hf] at hsome
      cases hsome
    · obtain ⟨b2, hb2, hact2, lo2, hlo2, hall⟩ :=
        validateBufferLotType_ok_inv hval
      have hlo3 : lo2 = lo := by
        rw [hlo] at hlo2
        injection hlo2 with h3
        exact h3.symm
      intro j hj hnotold
      rcases List.mem_append.mp hj with h1 | h2
      · exact absurd h1 hnotold
      · have hji : j = recvItem st rdata now := by simpa using h2
        subst hji
        exact ⟨rfl, b2, hb2, hact2, hall t (by rw [hlo3]; exact ht)⟩
  · intro h hf hlo ht
    rcases transferBetweenBuffers_ok_inv h with ⟨hsome, -⟩ |
      ⟨-, hq, hval, i, hA, hle, -, rfl⟩
    · rw [hf] at hsome
      cases hsome
    · obtain ⟨b2, hb2, hact2, lo2, hlo2, hall⟩ :=
        validateBufferLotType_ok_inv hval
      have hlo3 : lo2 = lo := by
        rw [hlo] at hlo2
        injection hlo2 with h3
        exact h3.symm
      refine ⟨i, hA, ?_, rfl, b2, hb2, hact2,
        hall t (by rw [hlo3]; exact ht)⟩
      exact List.mem_append.mpr (Or.inr (List.mem_singleton.mpr rfl))

/-- C7 witness: receiving the RAW lot 5 into buffer 2, which only allows
MIX, is rejected naming the mismatched type and the allowed list. -/
theorem C7_buffer_purity_witness :
    receiveToBuffer invSt0 ⟨5, 2, 1, 50⟩ 9 100 0 =
      .error (.lotTypeNotAllowed "RAW" ["MIX"]) :=
  (C7_buffer_purity invSt0 ⟨5, 2, 1, 50⟩ ⟨5, 1, 2, 50⟩ 9 100 0 invSt0 move50
    bufMix lotReleased "RAW").2.2.1 rfl (by decide) rfl rfl rfl rfl (by decide)

/-! ### Genealogy traversal lemmas -/

/-- A zero-length path ends at its start. -/
theorem GPath_zero_inv {edges : List GenLink} {key val : GenLink → Nat}
    {r v : Nat} (h : GPath edges key val r 0 v) : v = r := by
  cases h
  rfl

/-- Any positive-length path yields a minimal positive path length. -/
theorem gpath_min {edges : List GenLink} {key val : GenLink → Nat} {r : Nat} :
    ∀ k, 1 ≤ k → ∀ v, GPath edges key val r k v →
      ∃ m, 1 ≤ m ∧ m ≤ k ∧ minGPath edges key val r m v := by
  intro k
  induction k using Nat.strong_induction_on with
  | _ k ih =>
      intro hk v hp
      by_cases hshort : ∃ j, 1 ≤ j ∧ j < k ∧ GPath edges key val r j v
      · obtain ⟨j, hj1, hjk, hpj⟩ := hshort
        obtain ⟨m, hm1, hmj, hmin⟩ := ih j hjk hj1 v hpj
        exact ⟨m, hm1, Nat.le_of_lt (Nat.lt_of_le_of_lt hmj hjk), hmin⟩
      · refine ⟨k, hk, Nat.le_refl _, hp, ?_⟩
        intro j hj1 hjk hpj
        exact hshort ⟨j, hj1, hjk, hpj⟩

/-- Decomposition of a minimal path of length `i + 1`: its last link leaves
the level-`i` frontier (the root for `i = 0`, a minimal-`i` lot else). -/
theorem minGPath_decomp {edges : List GenLink} {key val : GenLink → Nat}
    {r i v : Nat} (h : minGPath edges key val r (i + 1) v) :
    ∃ e ∈ edges, val e = v ∧
      ((i = 0 ∧ key e = r) ∨
        (1 ≤ i ∧ minGPath edges key val r i (key e))) := by
  obtain ⟨hp, hmin⟩ := h
  cases hp with
  | succ hu he hk =>
      rename_i u e
      refine ⟨e, he, rfl, ?_⟩
      cases Nat.eq_zero_or_pos i with
      | inl hi0 =>
          subst hi0
          exact Or.inl ⟨rfl, by rw [hk, GPath_zero_inv hu]⟩
      | inr hi1 =>
          refine Or.inr ⟨hi1, ?_, ?_⟩
          · rw [hk]
            exact hu
          · intro j hj1 hji hpj
            have : GPath edges key val r (j + 1) (val e) :=
              GPath.succ hpj he rfl
            exact hmin (j + 1) (by omega) (by omega) this

/-- If the level-`j` sphere is empty, all deeper spheres are empty. -/
theorem minGPath_empty_above {edges : List GenLink} {key val : GenLink → Nat}
    {r j : Nat} (hj1 : 1 ≤ j)
    (hj : ∀ v, ¬ minGPath edges key val r j v) :
    ∀ k, j ≤ k → ∀ v, ¬ minGPath edges key val r k v := by
  intro k
  induction k with
  | zero => intro hjk; omega
  | succ k ihk =>
      intro hjk v hv
      rcases Nat.lt_or_ge j (k + 1) with hlt | hge
      · have hk1 : 1 ≤ k := by omega
        obtain ⟨e, he, hval, hcase⟩ := minGPath_decomp hv
        rcases hcase with ⟨hi0, -⟩ | ⟨-, hmin⟩
        · omega
        · exact ihk (by omega) (key e) hmin
      · have : j = k + 1 := by omega
        subst this
        exact hj v hv

/-- Reachability within `M` through the lens of minimal path lengths. -/
theorem reachWithin_iff_min {edges : List GenLink} {key val : GenLink → Nat}
    {r M v : Nat} :
    reachWithin edges key val r M v ↔
      ∃ m, 1 ≤ m ∧ m ≤ M ∧ minGPath edges key val r m v := by
  constructor
  · rintro ⟨k, hk1, hkM, hp⟩
    obtain ⟨m, hm1, hmk, hmin⟩ := gpath_min k hk1 v hp
    exact ⟨m, hm1, Nat.le_trans hmk hkM, hmin⟩
  · rintro ⟨m, hm1, hmM, hmin⟩
    exact ⟨m, hm1, hmM, hmin.1⟩

/-- Membership in both components of the per-level fold. -/
theorem addLevel_fold_mem (val : GenLink → Nat) :
    ∀ (lvl : List GenLink) (acc : List Nat × List Nat),
      (∀ v, v ∈ acc.2 → v ∈ acc.1) →
      ∀ v,
        (v ∈ (lvl.foldl (addLevelStep val) acc).1 ↔
          v ∈ acc.1 ∨ ∃ l ∈ lvl, val l = v) ∧
        (v ∈ (lvl.foldl (addLevelStep val) acc).2 ↔
          v ∈ acc.2 ∨ ((∃ l ∈ lvl, val l = v) ∧ v ∉ acc.1)) := by
  intro lvl
  induction lvl with
  | nil =>
      intro acc hsub v
      constructor <;> simp
  | cons l lvl ih =>
      intro acc hsub v
      by_cases hmem : val l ∈ acc.1
      · have hstep : addLevelStep val acc l = acc := by
          unfold addLevelStep
          rw [if_pos hmem]
        rw [List.foldl_cons, hstep]
        have h2 := ih acc hsub v
        constructor
        · rw [h2.1]
          constructor
          · rintro (hv | ⟨l2, hl2, hval2⟩)
            · exact Or.inl hv
            · exact Or.inr ⟨l2, List.mem_cons_of_mem _ hl2, hval2⟩
          · rintro (hv | ⟨l2, hl2, hval2⟩)
            · exact Or.inl hv
            · rcases List.mem_cons.mp hl2 with rfl | hl3
              · exact Or.inl (hval2 ▸ hmem)
              · exact Or.inr ⟨l2, hl3, hval2⟩
        · rw [h2.2]
          constructor
          · rintro (hv | ⟨⟨l2, hl2, hval2⟩, hnot⟩)
            · exact Or.inl hv
            · exact Or.inr ⟨⟨l2, List.mem_cons_of_mem _ hl2, hval2⟩, hnot⟩
          · rintro (hv | ⟨⟨l2, hl2, hval2⟩, hnot⟩)
            · exact Or.inl hv
            · rcases List.mem_cons.mp hl2 with rfl | hl3
              · exact absurd (hval2 ▸ hmem) hnot
              · exact Or.inr ⟨⟨l2, hl3, hval2⟩, hnot⟩
      · have hstep : addLevelStep val acc l =
            (acc.1 ++ [val l], acc.2 ++ [val l]) := by
          unfold addLevelStep
          rw [if_neg hmem]
        rw [List.foldl_cons, hstep]
        have hsub2 : ∀ w, w ∈ (acc.2 ++ [val l]) → w ∈ (acc.1 ++ [val l]) := by
          intro w hw
          rcases List.mem_append.mp hw with hw1 | hw2
          · exact List.mem_append.mpr (Or.inl (hsub w hw1))
          · exact List.mem_append.mpr (Or.inr hw2)
        have h2 := ih (acc.1 ++ [val l], acc.2 ++ [val l]) hsub2 v
        constructor
        · rw [h2.1]
          simp only [List.mem_append, List.mem_singleton]
          constructor
          · rintro ((hv | hv) | ⟨l2, hl2, hval2⟩)
            · exact Or.inl hv
            · exact Or.inr ⟨l, List.mem_cons_self _ _, hv.symm⟩
            · exact Or.inr ⟨l2, List.mem_cons_of_mem _ hl2, hval2⟩
          · rintro (hv | ⟨l2, hl2, hval2⟩)
            · exact Or.inl (Or.inl hv)
            · rcases List.mem_cons.mp hl2 with rfl | hl3
              · exact Or.inl (Or.inr hval2.symm)
              · exact Or.inr ⟨l2, hl3, hval2⟩
        · rw [h2.2]
          simp only [List.mem_append, List.mem_singleton]
          constructor
          · rintro ((hv | hv) | ⟨⟨l2, hl2, hval2⟩, hnot⟩)
            · exact Or.inl hv
            · exact Or.inr ⟨⟨l, List.mem_cons_self _ _, hv.symm⟩,
                by rw [hv]; exact hmem⟩
            · refine Or.inr ⟨⟨l2, List.mem_cons_of_mem _ hl2, hval2⟩, ?_⟩
              intro hv1
              exact hnot (Or.inl hv1)
          · rintro (hv | ⟨⟨l2, hl2, hval2⟩, hnot⟩)
            · exact Or.inl (Or.inl hv)
            · rcases List.mem_cons.mp hl2 with rfl | hl3
              · exact Or.inl (Or.inr hval2.symm)
              · by_cases hvl : v = val l
                · exact Or.inl (Or.inr hvl)
                · refine Or.inr ⟨⟨l2, hl3, hval2⟩, ?_⟩
                  rintro (hv1 | hv1)
                  · exact hnot hv1
                  · exact hvl hv1

/-- The per-level fold keeps the node list duplicate-free. -/
theorem addLevel_fold_nodup (val : GenLink → Nat) :
    ∀ (lvl : List GenLink) (acc : List Nat × List Nat),
      acc.1.Nodup → (lvl.foldl (addLevelStep val) acc).1.Nodup := by
  intro lvl
  induction lvl with
  | nil => intro acc h; exact h
  | cons l lvl ih =>
      intro acc h
      rw [List.foldl_cons]
      by_cases hmem : val l ∈ acc.1
      · have hstep : addLevelStep val acc l = acc := by
          unfold addLevelStep
          rw [if_pos hmem]
        rw [hstep]
        exact ih acc h
      · have hstep : addLevelStep val acc l =
            (acc.1 ++ [val l], acc.2 ++ [val l]) := by
          unfold addLevelStep
          rw [if_neg hmem]
        rw [hstep]
        refine ih _ ?_
        simp only [List.nodup_append, List.nodup_singleton, true_and]
        refine ⟨h, ?_⟩
        intro x hx hx2
        simp only [List.mem_singleton] at hx2
        subst hx2
        exact hmem hx

/-- Membership in one level fetch. -/
theorem levelLinks_mem {edges : List GenLink} {key : GenLink → Nat}
    {cur : List Nat} {l : GenLink} :
    l ∈ levelLinks edges key cur ↔ l ∈ edges ∧ key l ∈ cur := by
  simp [levelLinks, List.mem_filter]

/-- A frontier-spec lot carries a path of its level. -/
theorem frontSpec_gpath {edges : List GenLink} {key val : GenLink → Nat}
    {r i u : Nat} (h : frontSpec edges key val r i u) :
    GPath edges key val r i u := by
  unfold frontSpec at h
  by_cases hi : i = 0
  · rw [if_pos hi] at h
    subst hi
    rw [h]
    exact GPath.zero r
  · rw [if_neg hi] at h
    exact h.1

/-- The decomposition target of a minimal path lies in the frontier spec. -/
theorem decomp_front {edges : List GenLink} {key val : GenLink → Nat}
    {r i u : Nat}
    (h : (i = 0 ∧ u = r) ∨ (1 ≤ i ∧ minGPath edges key val r i u)) :
    frontSpec edges key val r i u := by
  unfold frontSpec
  rcases h with ⟨hi0, hur⟩ | ⟨hi1, hmin⟩
  · rw [if_pos hi0]
    exact hur
  · rw [if_neg (by omega)]
    exact hmin

/-- Invariant form of the bounded BFS loop: started with frontier and node
list describing `i` completed levels over a seed disjoint from everything
reachable, it returns exactly the seed plus the lots reachable within `M`
levels, without duplicates, fetching at most once per remaining level. -/
theorem bfsAux_spec (edges : List GenLink) (key val : GenLink → Nat)
    (dedup : Bool) (r M : Nat) (N0 : List Nat)
    (H0 : ∀ v ∈ N0, ¬ reachWithin edges key val r M v) :
    ∀ (fuel i : Nat) (cur nodes : List Nat) (links : List GenLink)
      (fetches : Nat),
      i + fuel = M →
      (∀ v, v ∈ cur ↔ frontSpec edges key val r i v) →
      (∀ v, v ∈ nodes ↔ nodesSpec edges key val N0 r i v) →
      nodes.Nodup →
      (∀ v, v ∈ (bfsAux edges key val dedup fuel cur nodes links fetches).1 ↔
        (v ∈ N0 ∨ reachWithin edges key val r M v)) ∧
      (bfsAux edges key val dedup fuel cur nodes links fetches).1.Nodup ∧
      (bfsAux edges key val dedup fuel cur nodes links fetches).2.2 ≤
        fetches + fuel := by
  intro fuel
  induction fuel with
  | zero =>
      intro i cur nodes links fetches hiM hc hn hnd
      have hieq : i = M := by omega
      subst hieq
      refine ⟨?_, hnd, ?_⟩
      · intro v
        show v ∈ nodes ↔ (v ∈ N0 ∨ reachWithin edges key val r i v)
        rw [hn v]
        unfold nodesSpec reachWithin
        exact Iff.rfl
      · show fetches ≤ fetches + 0
        omega
  | succ fuel ih =>
      intro i cur nodes links fetches hiM hc hn hnd
      by_cases hcur : cur.isEmpty = true
      · have hcur2 : cur = [] := List.isEmpty_iff.mp hcur
        have hres : bfsAux edges key val dedup (fuel + 1) cur nodes links
            fetches = (nodes, links, fetches) := by
          rw [bfsAux, if_pos hcur]
        rw [hres]
        have hi1 : 1 ≤ i := by
          rcases Nat.eq_zero_or_pos i with hi0 | hi
          · exfalso
            have : r ∈ cur := by
              rw [hc r]
              unfold frontSpec
              rw [if_pos hi0]
            rw [hcur2] at this
            cases this
          · exact hi
        have hempty : ∀ v, ¬ minGPath edges key val r i v := by
          intro v hv
          have : v ∈ cur := by
            rw [hc v]
            unfold frontSpec
            rw [if_neg (by omega)]
            exact hv
          rw [hcur2] at this
          cases this
        refine ⟨?_, hnd, ?_⟩
        · intro v
          show v ∈ nodes ↔ (v ∈ N0 ∨ reachWithin edges key val r M v)
          rw [hn v]
          unfold nodesSpec
          constructor
          · rintro (hv | ⟨k, hk1, hki, hp⟩)
            · exact Or.inl hv
            · exact Or.inr ⟨k, hk1, by omega, hp⟩
          · rintro (hv | hreach)
            · exact Or.inl hv
            · obtain ⟨m, hm1, hmM, hmin⟩ := reachWithin_iff_min.mp hreach
              have hmi : m < i := by
                by_contra hge
                exact minGPath_empty_above hi1 hempty m (by omega) v hmin
              exact Or.inr ⟨m, hm1, by omega, hmin.1⟩
        · show fetches ≤ fetches + (fuel + 1)
          omega
      · by_cases hlvl : (levelLinks edges key cur).isEmpty = true
        · have hres : bfsAux edges key val dedup (fuel + 1) cur nodes links
              fetches = (nodes, links, fetches + 1) := by
            rw [bfsAux, if_neg hcur, if_pos hlvl]
          rw [hres]
          have hlvl2 : levelLinks edges key cur = [] :=
            List.isEmpty_iff.mp hlvl
          have hempty : ∀ v, ¬ minGPath edges key val r (i + 1) v := by
            intro v hv
            obtain ⟨e, he, hval, hcase⟩ := minGPath_decomp hv
            have hfront : frontSpec edges key val r i (key e) := by
              refine decomp_front ?_
              rcases hcase with ⟨hi0, hkr⟩ | ⟨hi1, hmin⟩
              · exact Or.inl ⟨hi0, hkr⟩
              · exact Or.inr ⟨hi1, hmin⟩
            have : e ∈ levelLinks edges key cur :=
              levelLinks_mem.mpr ⟨he, (hc (key e)).mpr hfront⟩
            rw [hlvl2] at this
            cases this
          refine ⟨?_, hnd, ?_⟩
          · intro v
            show v ∈ nodes ↔ (v ∈ N0 ∨ reachWithin edges key val r M v)
            rw [hn v]
            unfold nodesSpec
            constructor
            · rintro (hv | ⟨k, hk1, hki, hp⟩)
              · exact Or.inl hv
              · exact Or.inr ⟨k, hk1, by omega, hp⟩
            · rintro (hv | hreach)
              · exact Or.inl hv
              · obtain ⟨m, hm1, hmM, hmin⟩ := reachWithin_iff_min.mp hreach
                have hmi : m < i + 1 := by
                  by_contra hge
                  exact minGPath_empty_above (by omega) hempty m (by omega)
                    v hmin
                exact Or.inr ⟨m, hm1, by omega, hmin.1⟩
          · show fetches + 1 ≤ fetches + (fuel + 1)
            omega
        · have hres : bfsAux edges key val dedup (fuel + 1) cur nodes links
              fetches = bfsAux edges key val dedup fuel
                (addLevel val nodes (levelLinks edges key cur)).2
                (addLevel val nodes (levelLinks edges key cur)).1
                (if dedup then dedupAppend links (levelLinks edges key cur)
                  else links ++ levelLinks edges key cur)
                (fetches + 1) := by
            rw [bfsAux, if_neg hcur, if_neg hlvl]
          rw [hres]
          have hmem := addLevel_fold_mem val (levelLinks edges key cur)
            (nodes, []) (by intro v hv; cases hv)
          have hval_path : ∀ l ∈ levelLinks edges key cur,
              GPath edges key val r (i + 1) (val l) := by
            intro l hl
            obtain ⟨he, hkc⟩ := levelLinks_mem.mp hl
            exact GPath.succ (frontSpec_gpath ((hc (key l)).mp hkc)) he rfl
          have hdecomp_mem : ∀ v, minGPath edges key val r (i + 1) v →
              ∃ l ∈ levelLinks edges key cur, val l = v := by
            intro v hv
            obtain ⟨e, he, hval, hcase⟩ := minGPath_decomp hv
            have hfront : frontSpec edges key val r i (key e) := by
              refine decomp_front ?_
              rcases hcase with ⟨hi0, hkr⟩ | ⟨hi1, hmin⟩
              · exact Or.inl ⟨hi0, hkr⟩
              · exact Or.inr ⟨hi1, hmin⟩
            exact ⟨e, levelLinks_mem.mpr ⟨he, (hc (key e)).mpr hfront⟩, hval⟩
          have hn' : ∀ v,
              v ∈ (addLevel val nodes (levelLinks edges key cur)).1 ↔
                nodesSpec edges key val N0 r (i + 1) v := by
            intro v
            rw [show (addLevel val nodes (levelLinks edges key cur)).1 =
              ((levelLinks edges key cur).foldl (addLevelStep val)
                (nodes, [])).1 from rfl]
            rw [(hmem v).1]
            show v ∈ nodes ∨ (∃ l ∈ levelLinks edges key cur, val l = v) ↔ _
            rw [hn v]
            unfold nodesSpec
            constructor
            · rintro ((hv | ⟨k, hk1, hki, hp⟩) | ⟨l, hl, rfl⟩)
              · exact Or.inl hv
              · exact Or.inr ⟨k, hk1, by omega, hp⟩
              · exact Or.inr ⟨i + 1, by omega, Nat.le_refl _,
                  hval_path l hl⟩
            · rintro (hv | ⟨k, hk1, hki, hp⟩)
              · exact Or.inl (Or.inl hv)
              · rcases Nat.lt_or_ge k (i + 1) with hki2 | hki2
                · exact Or.inl (Or.inr ⟨k, hk1, by omega, hp⟩)
                · have hkeq : k = i + 1 := by omega
                  subst hkeq
                  obtain ⟨m, hm1, hmk, hmin⟩ := gpath_min (i + 1) hk1 v hp
                  rcases Nat.lt_or_ge m (i + 1) with hmi | hmi
                  · exact Or.inl (Or.inr ⟨m, hm1, by omega, hmin.1⟩)
                  · have hmeq : m = i + 1 := by omega
                    subst hmeq
                    exact Or.inr (hdecomp_mem v hmin)
          have hc' : ∀ v,
              v ∈ (addLevel val nodes (levelLinks edges key cur)).2 ↔
                frontSpec edges key val r (i + 1) v := by
            intro v
            rw [show (addLevel val nodes (levelLinks edges key cur)).2 =
              ((levelLinks edges key cur).foldl (addLevelStep val)
                (nodes, [])).2 from rfl]
            rw [(hmem v).2]
            show (v ∈ ([] : List Nat) ∨
              ((∃ l ∈ levelLinks edges key cur, val l = v) ∧ v ∉ nodes)) ↔ _
            unfold frontSpec
            rw [if_neg (by omega)]
            constructor
            · rintro (hv | ⟨⟨l, hl, rfl⟩, hnot⟩)
              · cases hv
              · refine ⟨hval_path l hl, ?_⟩
                intro j hj1 hji hp
                refine hnot ?_
                rw [hn (val l)]
                exact Or.inr ⟨j, hj1, by omega, hp⟩
            · intro hmin
              refine Or.inr ⟨hdecomp_mem v hmin, ?_⟩
              intro hv
              rw [hn v] at hv
              rcases hv with hv0 | ⟨k, hk1, hki, hp⟩
              · exact H0 v hv0 ⟨i + 1, by omega, by omega, hmin.1⟩
              · exact hmin.2 k hk1 (by omega) hp
          have hnd' : (addLevel val nodes (levelLinks edges key cur)).1.Nodup :=
            addLevel_fold_nodup val (levelLinks edges key cur) (nodes, []) hnd
          have hres2 := ih (i + 1)
            (addLevel val nodes (levelLinks edges key cur)).2
            (addLevel val nodes (levelLinks edges key cur)).1
            (if dedup then dedupAppend links (levelLinks edges key cur)
              else links ++ levelLinks edges key cur)
            (fetches + 1) (by omega) hc' hn' hnd'
          exact ⟨hres2.1, hres2.2.1, by omega⟩

/-- The BFS loop run from scratch at a root: its node list is exactly the
lots reachable within `M` levels, duplicate-free, with at most `M`
fetches. -/
theorem bfs_from_root (edges : List GenLink) (key val : GenLink → Nat)
    (dedup : Bool) (r M : Nat) (links0 : List GenLink) :
    (∀ v, v ∈ (bfsAux edges key val dedup M [r] [] links0 0).1 ↔
      reachWithin edges key val r M v) ∧
    (bfsAux edges key val dedup M [r] [] links0 0).1.Nodup ∧
    (bfsAux edges key val dedup M [r] [] links0 0).2.2 ≤ M := by
  have h := bfsAux_spec edges key val dedup r M []
    (by intro v hv; cases hv) M 0 [r] [] links0 0 (by omega)
    (by
      intro v
      unfold frontSpec
      rw [if_pos rfl]
      simp)
    (by
      intro v
      unfold nodesSpec
      constructor
      · intro hv; cases hv
      · rintro (hv | ⟨k, hk1, hk0, -⟩)
        · cases hv
        · omega)
    List.nodup_nil
  refine ⟨?_, h.2.1, by have := h.2.2; omega⟩
  intro v
  rw [h.1 v]
  constructor
  · rintro (hv | hr)
    · cases hv
    · exact hr
  · exact Or.inr

/-- The BFS loop run at a root over a seeded visited list disjoint from
everything reachable: it adds exactly the reachable lots. -/
theorem bfs_seeded (edges : List GenLink) (key val : GenLink → Nat)
    (dedup : Bool) (r M : Nat) (N0 : List Nat) (links0 : List GenLink)
    (hnd : N0.Nodup) (H0 : ∀ v ∈ N0, ¬ reachWithin edges key val r M v) :
    (∀ v, v ∈ (bfsAux edges key val dedup M [r] N0 links0 0).1 ↔
      (v ∈ N0 ∨ reachWithin edges key val r M v)) ∧
    (bfsAux edges key val dedup M [r] N0 links0 0).1.Nodup ∧
    (bfsAux edges key val dedup M [r] N0 links0 0).2.2 ≤ M := by
  have h := bfsAux_spec edges key val dedup r M N0 H0 M 0 [r] N0 links0 0
    (by omega)
    (by
      intro v
      unfold frontSpec
      rw [if_pos rfl]
      simp)
    (by
      intro v
      unfold nodesSpec
      constructor
      · exact Or.inl
      · rintro (hv | ⟨k, hk1, hk0, -⟩)
        · exact hv
        · omega)
    hnd
  exact ⟨h.1, h.2.1, by have := h.2.2; omega⟩

/-- C10 counterexample: over the edge set `exEdges` — a 2-cycle between
lots 0 and 1 plus a child 2 of lot 1 — the combined tree query at root 0
with maxDepth 2 returns the node set `[1, 0]`, although lot 2 is reachable
in the forward (children) direction within 2 levels: the shared visited
map stops the forward pass at lot 1, which the backward pass already
recorded. -/
theorem C10_genealogy_counterexample :
    (getFullGenealogyTree exLots exEdges 0 2).toOption.map TreeResult.nodes =
        some [1, 0] ∧
      GPath exEdges keyChildren valChildren 0 2 2 ∧
      (2 : Nat) ∉ [1, 0] := by
  refine ⟨rfl, ?_, by decide⟩
  have h1 : GPath exEdges keyChildren valChildren 0 1 1 :=
    @GPath.succ exEdges keyChildren valChildren 0 0 0 ⟨2, 0, 1, 1⟩
      (GPath.zero 0) (by simp [exEdges]) rfl
  exact @GPath.succ exEdges keyChildren valChildren 0 1 1 ⟨3, 1, 2, 1⟩
    h1 (by simp [exEdges]) rfl

/-- C10 (amended).  Genealogy bounded traversal: parents/children queries
reject depth outside 1..10 and the tree query outside 1..5; a valid
parents or children query with maxDepth M returns exactly the lots
reachable in its direction within M levels (hence within min(D, M) on a
lineage of depth D), with no lot twice and at most M link fetches, robust
to duplicate links and cycles; the tree query satisfies the same
description — union of both directions, no duplicates, at most M fetches
per direction — provided no lot is reachable both backward and forward
within M levels (no cycle through the root); with such a cycle the shared
visited map may omit forward-reachable lots. -/
theorem C10_genealogy_bounded_traversal :
    ∀ (lots : List Nat) (edges : List GenLink) (lot_id depth : Nat)
      (nodes : List Nat) (links : List GenLink) (fetches : Nat)
      (res : TreeResult),
      (depth < 1 ∨ 10 < depth →
        getParentLots lots edges lot_id depth = .error .invalidDepth ∧
        getChildLots lots edges lot_id depth = .error .invalidDepth) ∧
      (depth < 1 ∨ 5 < depth →
        getFullGenealogyTree lots edges lot_id depth = .error .invalidDepth) ∧
      (getParentLots lots edges lot_id depth = .ok (nodes, links, fetches) →
        (∀ v, v ∈ nodes ↔
          reachWithin edges keyParents valParents lot_id depth v) ∧
        nodes.Nodup ∧ fetches ≤ depth) ∧
      (getChildLots lots edges lot_id depth = .ok (nodes, links, fetches) →
        (∀ v, v ∈ nodes ↔
          reachWithin edges keyChildren valChildren lot_id depth v) ∧
        nodes.Nodup ∧ fetches ≤ depth) ∧
      ((∀ v, reachWithin edges keyParents valParents lot_id depth v →
          ¬ reachWithin edges keyChildren valChildren lot_id depth v) →
        getFullGenealogyTree lots edges lot_id depth = .ok res →
        (∀ v, v ∈ res.nodes ↔
          (reachWithin edges keyParents valParents lot_id depth v ∨
            reachWithin edges keyChildren valChildren lot_id depth v)) ∧
        res.nodes.Nodup ∧ res.backward_fetches ≤ depth ∧
        res.forward_fetches ≤ depth) := by
  intro lots edges lot_id depth nodes links fetches res
  refine ⟨?_, ?_, ?_, ?_, ?_⟩
  · intro hbad
    constructor
    · unfold getParentLots
      rw [if_pos hbad]
    · unfold getChildLots
      rw [if_pos hbad]
  · intro hbad
    unfold getFullGenealogyTree
    rw [if_pos hbad]
  · intro hok
    unfold getParentLots at hok
    by_cases hbad : depth < 1 ∨ 10 < depth
    · rw [if_pos hbad] at hok
      cases hok
    · rw [if_neg hbad] at hok
      by_cases hmem : lot_id ∉ lots
      · rw [if_pos hmem] at hok
        cases hok
      · rw [if_neg hmem] at hok
        have heq : bfsAux edges keyParents valParents false depth [lot_id]
            [] [] 0 = (nodes, links, fetches) := by
          injection hok
        obtain ⟨hspec, hnd2, hf⟩ := bfs_from_root edges keyParents
          valParents false lot_id depth []
        rw [heq] at hspec hnd2 hf
        exact ⟨fun v => hspec v, hnd2, hf⟩
  · intro hok
    unfold getChildLots at hok
    by_cases hbad : depth < 1 ∨ 10 < depth
    · rw [if_pos hbad] at hok
      cases hok
    · rw [if_neg hbad] at hok
      by_cases hmem : lot_id ∉ lots
      · rw [if_pos hmem] at hok
        cases hok
      · rw [if_neg hmem] at hok
        have heq : bfsAux edges keyChildren valChildren false depth [lot_id]
            [] [] 0 = (nodes, links, fetches) := by
          injection hok
        obtain ⟨hspec, hnd2, hf⟩ := bfs_from_root edges keyChildren
          valChildren false lot_id depth []
        rw [heq] at hspec hnd2 hf
        exact ⟨fun v => hspec v, hnd2, hf⟩
  · intro hdisj hok
    unfold getFullGenealogyTree at hok
    by_cases hbad : depth < 1 ∨ 5 < depth
    · rw [if_pos hbad] at hok
      cases hok
    · rw [if_neg hbad] at hok
      by_cases hmem : lot_id ∉ lots
      · rw [if_pos hmem] at hok
        cases hok
      · rw [if_neg hmem] at hok
        obtain ⟨hbspec, hbnd, hbf⟩ := bfs_from_root edges keyParents
          valParents false lot_id depth []
        have H0 : ∀ v ∈ (bfsAux edges keyParents valParents false depth
            [lot_id] [] [] 0).1,
            ¬ reachWithin edges keyChildren valChildren lot_id depth v := by
          intro v hv
          exact hdisj v ((hbspec v).mp hv)
        obtain ⟨hfspec, hfnd, hff⟩ := bfs_seeded edges keyChildren
          valChildren true lot_id depth
          (bfsAux edges keyParents valParents false depth [lot_id] [] [] 0).1
          (bfsAux edges keyParents valParents false depth [lot_id] [] [] 0).2.1
          hbnd H0
        have hok2 : (Except.ok
            { nodes := (bfsAux edges keyChildren valChildren true depth
                [lot_id]
                (bfsAux edges keyParents valParents false depth [lot_id]
                  [] [] 0).1
                (bfsAux edges keyParents valParents false depth [lot_id]
                  [] [] 0).2.1 0).1
              links := (bfsAux edges keyChildren valChildren true depth
                [lot_id]
                (bfsAux edges keyParents valParents false depth [lot_id]
                  [] [] 0).1
                (bfsAux edges keyParents valParents false depth [lot_id]
                  [] [] 0).2.1 0).2.1
              backward_fetches := (bfsAux edges keyParents valParents false
                depth [lot_id] [] [] 0).2.2
              forward_fetches := (bfsAux edges keyChildren valChildren true
                depth [lot_id]
                (bfsAux edges keyParents valParents false depth [lot_id]
                  [] [] 0).1
                (bfsAux edges keyParents valParents false depth [lot_id]
                  [] [] 0).2.1 0).2.2 } :
            Except GenErr TreeResult) = .ok res := hok
        injection hok2 with h2
        subst h2
        refine ⟨?_, hfnd, hbf, hff⟩
        intro v
        exact (hfspec v).trans (or_congr (hbspec v) Iff.rfl)

/-- C10 witness: a parents query with depth 0 and one with depth 11 are
both rejected as invalid. -/
theorem C10_genealogy_bounded_traversal_witness :
    getParentLots exLots exEdges 0 0 = .error .invalidDepth ∧
      getParentLots exLots exEdges 0 11 = .error .invalidDepth := by
  refine ⟨?_, ?_⟩
  · exact ((C10_genealogy_bounded_traversal exLots exEdges 0 0 [] [] 0
      ⟨[], [], 0, 0⟩).1 (by omega)).1
  · exact ((C10_genealogy_bounded_traversal exLots exEdges 0 11 [] [] 0
      ⟨[], [], 0, 0⟩).1 (by omega)).1

end WMS
